import Mathlib

/-! InfoHub currency endpoint (`server/server.js`, `app.get('/api/currency')`).

A shallow embedding of the currency-rate aggregation handler: input
normalisation, the allow-list, the TTL cache and the three-provider fallback
chain, followed by theorems about it.

Modelling conventions.

* JavaScript strings are lists of characters (`Str`).
* A JavaScript object with string keys is an association list (`JsObj`) read
  with `JsObj.get` (first binding of the key) and written with `JsObj.set`
  (overwrite in place, or append), so `Object.keys` is the list of first
  components in insertion order.
* Query parameters are `Option Str`: absent, or a string (the repeated and
  bracketed forms that the query parser turns into arrays or objects are not
  modelled).
* `Date.now()` is the field `now` of the request, an integer number of
  milliseconds.
* The result of `parseFloat` is kept as the exact decimal literal that was read
  (`JsNum`); the tests `isNaN` and `< 0` on the IEEE double it denotes are decided
  exactly on that literal.
* The double-precision product `amount * r`, the rounding `+(x).toFixed(6)` and
  the Unicode upper-case table for non-ASCII characters are fields of `Runtime`.
* The three upstream services are functions from the request parameters to a
  `Reply`; the list `calls` of an `Outcome` records which of them were invoked.
-/

namespace InfoHub

/-- JavaScript strings. -/
abbrev Str := List Char

/-! ## Objects with string keys -/

/-- An object with string keys: bindings in insertion order. -/
abbrev JsObj (α : Type) := List (Str × α)

namespace JsObj

/-- Property read `o[k]`; `none` stands for `undefined`. -/
def get {α : Type} : JsObj α → Str → Option α
  | [], _ => none
  | (k, v) :: rest, key => if k = key then some v else get rest key

/-- Property write `o[k] = v`: overwrite an existing binding in place, or append. -/
def set {α : Type} : JsObj α → Str → α → JsObj α
  | [], key, val => [(key, val)]
  | (k, v) :: rest, key, val =>
    if k = key then (k, val) :: rest else (k, v) :: set rest key val

/-- The list `Object.keys(o)`. -/
def keys {α : Type} (o : JsObj α) : List Str := o.map Prod.fst

end JsObj

/-! ## String primitives -/

/-- White space and line terminators removed by `trim` and skipped by `parseFloat`. -/
def isJsWhiteSpace (c : Char) : Bool :=
  let n := c.toNat
  n = 0x09 || n = 0x0A || n = 0x0B || n = 0x0C || n = 0x0D || n = 0x20 || n = 0xA0 ||
  n = 0x1680 || (0x2000 ≤ n && n ≤ 0x200A) || n = 0x2028 || n = 0x2029 || n = 0x202F ||
  n = 0x205F || n = 0x3000 || n = 0xFEFF

/-- The method `String.prototype.trim`. -/
def trim (s : Str) : Str :=
  ((s.dropWhile isJsWhiteSpace).reverse.dropWhile isJsWhiteSpace).reverse

/-- The call `s.split(sep)` for a one-character separator. -/
def split (sep : Char) : Str → List Str
  | [] => [[]]
  | c :: cs =>
    if c = sep then [] :: split sep cs
    else
      match split sep cs with
      | [] => [[c]]
      | h :: t => (c :: h) :: t

/-- The call `l.join(',')`. -/
def joinComma : List Str → Str
  | [] => []
  | [x] => x
  | x :: y :: rest => x ++ ',' :: joinComma (y :: rest)

/-- Upper-casing of one character: ASCII letters are shifted, every other ASCII
character is kept, and a non-ASCII character is looked up in the table `up`. -/
def upperChar (up : Char → Str) (c : Char) : Str :=
  if c.toNat < 128 then [c.toUpper] else up c

/-- The method `String.prototype.toUpperCase`, character by character. -/
def toUpperCase (up : Char → Str) (s : Str) : Str :=
  s.flatMap (upperChar up)

/-! ## Numbers read by `parseFloat` -/

/-- The value of `parseFloat`: `NaN`, a signed infinity, or the signed decimal
literal `m * 10 ^ e` that was read (denoting the nearest double). -/
inductive JsNum where
  | nan : JsNum
  | inf (neg : Bool) : JsNum
  | dec (neg : Bool) (m : Nat) (e : Int) : JsNum
  deriving DecidableEq, Repr

namespace JsNum

/-- The test `isNaN(x)`. -/
def isNaN : JsNum → Bool
  | nan => true
  | _ => false

/-- The test `x < 0` on the double denoted by the literal: a negative literal
whose magnitude exceeds `2 ^ (-1075)`, half the least positive double (smaller
magnitudes, and that one by the ties-to-even rule, round to `-0`). -/
def ltZero : JsNum → Bool
  | nan => false
  | inf neg => neg
  | dec neg m e => neg && decide (10 ^ (-e).toNat < m * 2 ^ 1075 * 10 ^ e.toNat)

/-- The number `1`, the default amount. -/
def one : JsNum := dec false 1 0

end JsNum

/-- Value of a string of decimal digits, most significant first. -/
def digitsValue (ds : Str) : Nat :=
  ds.foldl (fun acc c => 10 * acc + (c.toNat - '0'.toNat)) 0

/-- The exponent part of a decimal literal: `e` or `E`, an optional sign and at
least one digit; `0` when the text does not start with a complete exponent. -/
def parseExponent : Str → Int
  | c :: rest =>
    if c = 'e' || c = 'E' then
      match rest with
      | '-' :: r =>
        if r.takeWhile Char.isDigit = [] then 0
        else - (digitsValue (r.takeWhile Char.isDigit) : Int)
      | '+' :: r => (digitsValue (r.takeWhile Char.isDigit) : Int)
      | r => (digitsValue (r.takeWhile Char.isDigit) : Int)
    else 0
  | [] => 0

/-- The unsigned part of a decimal literal: `Infinity`, or digits with an
optional fraction and exponent; `NaN` when no prefix of the text is one. -/
def parseUnsigned (neg : Bool) (u : Str) : JsNum :=
  if "Infinity".toList.isPrefixOf u then JsNum.inf neg
  else
    let ip := u.takeWhile Char.isDigit
    let r1 := u.dropWhile Char.isDigit
    match r1 with
    | '.' :: r =>
      let fp := r.takeWhile Char.isDigit
      let r2 := r.dropWhile Char.isDigit
      if ip = [] ∧ fp = [] then JsNum.nan
      else JsNum.dec neg (digitsValue (ip ++ fp)) (parseExponent r2 - fp.length)
    | r2 =>
      if ip = [] then JsNum.nan
      else JsNum.dec neg (digitsValue ip) (parseExponent r2)

/-- The global function `parseFloat`: skip leading white space, read an optional
sign, then the longest prefix that is a decimal literal. -/
def parseFloat (s : Str) : JsNum :=
  match s.dropWhile isJsWhiteSpace with
  | '-' :: r => parseUnsigned true r
  | '+' :: r => parseUnsigned false r
  | t => parseUnsigned false t

/-! ## The currency handler -/

/-- Primitives of the JavaScript runtime that the handler uses and that are kept
abstract: `upper` is the Unicode upper-case table on non-ASCII characters,
`times amount r` is the double-precision product `amount * r` and
`toFixed6 x` is `+(x).toFixed(6)`, rounding to six decimal places. `V` is the
type of the non-null values found in rate tables. -/
structure Runtime (V : Type) where
  upper : Char → Str
  times : JsNum → V → V
  toFixed6 : V → V

/-- The constant `CACHE_TTL_MS`: five minutes in milliseconds. -/
def CACHE_TTL_MS : Int := 1000 * 60 * 5

/-- The set `ALLOW` of supported currency codes. -/
def ALLOW : List Str :=
  ["USD", "EUR", "GBP", "INR", "JPY", "AUD", "CAD", "SGD", "CHF", "CNY", "AED", "NZD", "ZAR",
   "SEK", "NOK", "DKK", "HKD", "KRW", "THB", "MYR", "PHP", "IDR", "BRL", "RUB", "PLN", "MXN",
   "TWD"].map String.toList

/-- A value of `currencyCache`: the time of the fetch and the projected rates. -/
structure CacheEntry (V : Type) where
  ts : Int
  rates : JsObj V

/-- The object `currencyCache`, keyed by `base|symbols`. -/
abbrev Cache (V : Type) := JsObj (CacheEntry V)

/-- The body `resp.data` of an upstream answer, as far as the handler reads it:
`result` is the field of that name when it is a string, `rates` is `none` when
`resp.data` or its field `rates` is falsy, and otherwise the members of
`rates`, a member being `none` when its value is `null` (a truthy `rates` that
is not a plain object has no member at any currency code). -/
structure Body (V : Type) where
  result : Option Str
  rates : Option (JsObj (Option V))

/-- What `axios.get` does: reject (transport error, timeout, error status) or
resolve with a body. -/
inductive Reply (V : Type) where
  | threw : Reply V
  | data (body : Body V) : Reply V

/-- The value of `resp.data && resp.data.rates` when it is truthy; `none` when
the call rejected or the value is falsy. -/
def Reply.rates {V : Type} : Reply V → Option (JsObj (Option V))
  | Reply.threw => none
  | Reply.data body => body.rates

/-- The three upstream services as functions of the request parameters:
`exchangerateHost base symbols`, `frankfurter from to` and `openErApi base`. -/
structure Providers (V : Type) where
  exchangerateHost : Str → Str → Reply V
  frankfurter : Str → Str → Reply V
  openErApi : Str → Reply V

/-- Names of the upstream services, in the order of the chain. -/
inductive ProviderId where
  | exchangerateHost
  | frankfurter
  | openErApi
  deriving DecidableEq, Repr

/-- The query of a request and the reading of the clock taken while serving it. -/
structure Request where
  amount : Option Str
  base : Option Str
  symbols : Option Str
  now : Int

/-- The error bodies the handler sends. -/
inductive ErrorKind where
  /-- Status 400, "Invalid amount. Provide a positive number." -/
  | invalidAmount
  /-- Status 400, "Base currency ... not supported." -/
  | unsupportedBase
  /-- Status 400, "No valid target currencies were provided." -/
  | noValidTargets
  /-- Status 502, "Provider returned no usable rates." -/
  | noUsableRates
  /-- Status 502, "Bad response from currency provider." -/
  | badProviderResponse
  deriving DecidableEq, Repr

/-- What is sent to the client: the success body (status 200) or a status with
an error body. -/
inductive Response (V : Type) where
  | json (base : Str) (amount : JsNum) (conversions : JsObj V) (source : Str)
      (cachedAt : Option Int) : Response V
  | error (status : Nat) (kind : ErrorKind) : Response V

/-- Result of serving one request: the response, the upstream services that
were called, in order, and the cache afterwards. -/
structure Outcome (V : Type) where
  response : Response V
  calls : List ProviderId
  cache : Cache V

/-- The expression `p || dflt` on a query parameter: the default replaces an
absent or empty string. -/
def orDefault (p : Option Str) (dflt : Str) : Str :=
  match p with
  | some s => if s = [] then dflt else s
  | none => dflt

/-- The amount: `amountParam ? parseFloat(amountParam) : 1`. -/
def parseAmount (p : Option Str) : JsNum :=
  match p with
  | some s => if s = [] then JsNum.one else parseFloat s
  | none => JsNum.one

/-- The base: `(req.query.base || 'INR').toUpperCase()`. -/
def normBase {V : Type} (rt : Runtime V) (req : Request) : Str :=
  toUpperCase rt.upper (orDefault req.base "INR".toList)

/-- The entries of `symbols` (default `USD,EUR`), upper-cased, split at commas,
trimmed and without the empty ones. -/
def splitSymbols {V : Type} (rt : Runtime V) (req : Request) : List Str :=
  ((split ',' (toUpperCase rt.upper (orDefault req.symbols "USD,EUR".toList))).map trim).filter
    (fun s => decide (s ≠ []))

/-- The list `symbolsList` after the allow-list filter. -/
def allowedSymbols {V : Type} (rt : Runtime V) (req : Request) : List Str :=
  (splitSymbols rt req).filter (fun s => decide (s ∈ ALLOW))

/-- The list `symbolsList` after the base has been removed from it. -/
def targets {V : Type} (rt : Runtime V) (req : Request) : List Str :=
  (allowedSymbols rt req).filter (fun s => decide (s ≠ normBase rt req))

/-- The cache key, `base` then `|` then the symbols joined by commas. -/
def cacheKey (base : Str) (symbolsList : List Str) : Str :=
  base ++ '|' :: joinComma symbolsList

/-- The loop that builds `conversions`: for each key `k` of `rates`, bind `k`
to `+(amount * rates[k]).toFixed(6)`. -/
def convert {V : Type} (rt : Runtime V) (amount : JsNum) (rates : JsObj V) : JsObj V :=
  (JsObj.keys rates).foldl
    (fun acc k =>
      match JsObj.get rates k with
      | some r => JsObj.set acc k (rt.toFixed6 (rt.times amount r))
      | none => acc)
    []

/-- The loop that keeps the requested symbols of an upstream table: a symbol
whose rate is `undefined` or `null` is skipped. -/
def pick {V : Type} (symbolsList : List Str) (ratesObj : JsObj (Option V)) : JsObj V :=
  symbolsList.foldl
    (fun acc s =>
      match JsObj.get ratesObj s with
      | some (some r) => JsObj.set acc s r
      | _ => acc)
    []

/-- A table of non-null values seen as an upstream table. -/
def asTable {V : Type} (o : JsObj V) : JsObj (Option V) :=
  o.map (fun kv => (kv.1, some kv.2))

/-- The name a provider is reported under in `source`. -/
def ProviderId.name : ProviderId → Str
  | ProviderId.exchangerateHost => "exchangerate.host".toList
  | ProviderId.frankfurter => "frankfurter".toList
  | ProviderId.openErApi => "open.er-api.com".toList

/-- The helper `respondWithRates`: project the table on the requested symbols;
answer 502 when nothing is left, otherwise store the projection under the
cache key with the time `now` and answer with the conversions. The argument
`calls` is the list of services called so far. -/
def respondWithRates {V : Type} (rt : Runtime V) (cache : Cache V) (base : Str)
    (amount : JsNum) (symbolsList : List Str) (key : Str) (now : Int)
    (calls : List ProviderId) (provider : ProviderId) (ratesObj : JsObj (Option V)) :
    Outcome V :=
  let rates := pick symbolsList ratesObj
  if JsObj.keys rates = [] then
    { response := Response.error 502 ErrorKind.noUsableRates, calls := calls, cache := cache }
  else
    { response := Response.json base amount (convert rt amount rates) provider.name none,
      calls := calls,
      cache := JsObj.set cache key { ts := now, rates := rates } }

/-- Step 6 of the handler: every provider failed. -/
def allFailed {V : Type} (cache : Cache V) (calls : List ProviderId) : Outcome V :=
  { response := Response.error 502 ErrorKind.badProviderResponse, calls := calls, cache := cache }

/-- Step 5 of the handler, the third provider: its answer is used when
`result` is `success`, `rates` is truthy and some requested symbol has a rate. -/
def tryOpenErApi {V : Type} (rt : Runtime V) (P : Providers V) (cache : Cache V) (base : Str)
    (amount : JsNum) (symbolsList : List Str) (key : Str) (now : Int) : Outcome V :=
  let calls := [ProviderId.exchangerateHost, ProviderId.frankfurter, ProviderId.openErApi]
  match P.openErApi base with
  | Reply.data { result := some r, rates := some tbl } =>
    if r = "success".toList then
      let picked := pick symbolsList tbl
      if JsObj.keys picked ≠ [] then
        respondWithRates rt cache base amount symbolsList key now calls ProviderId.openErApi
          (asTable picked)
      else allFailed cache calls
    else allFailed cache calls
  | _ => allFailed cache calls

/-- Step 4 of the handler, the second provider: a truthy `rates` ends the
request in `respondWithRates`; anything else passes on to the third provider. -/
def tryFrankfurter {V : Type} (rt : Runtime V) (P : Providers V) (cache : Cache V) (base : Str)
    (amount : JsNum) (symbolsList : List Str) (key : Str) (now : Int) : Outcome V :=
  match (P.frankfurter base (joinComma symbolsList)).rates with
  | some tbl =>
    respondWithRates rt cache base amount symbolsList key now
      [ProviderId.exchangerateHost, ProviderId.frankfurter] ProviderId.frankfurter tbl
  | none => tryOpenErApi rt P cache base amount symbolsList key now

/-- Step 3 of the handler, the first provider: a truthy `rates` ends the
request in `respondWithRates`; anything else passes on to the second provider. -/
def tryExchangerateHost {V : Type} (rt : Runtime V) (P : Providers V) (cache : Cache V)
    (base : Str) (amount : JsNum) (symbolsList : List Str) (key : Str) (now : Int) : Outcome V :=
  match (P.exchangerateHost base (joinComma symbolsList)).rates with
  | some tbl =>
    respondWithRates rt cache base amount symbolsList key now
      [ProviderId.exchangerateHost] ProviderId.exchangerateHost tbl
  | none => tryFrankfurter rt P cache base amount symbolsList key now

/-- The handler of `GET /api/currency`. -/
def currency {V : Type} (rt : Runtime V) (P : Providers V) (cache : Cache V) (req : Request) :
    Outcome V :=
  let amount := parseAmount req.amount
  if amount.isNaN || amount.ltZero then
    { response := Response.error 400 ErrorKind.invalidAmount, calls := [], cache := cache }
  else
    let base := normBase rt req
    if base ∉ ALLOW then
      { response := Response.error 400 ErrorKind.unsupportedBase, calls := [], cache := cache }
    else if allowedSymbols rt req = [] then
      { response := Response.error 400 ErrorKind.noValidTargets, calls := [], cache := cache }
    else
      let symbolsList := targets rt req
      let key := cacheKey base symbolsList
      match JsObj.get cache key with
      | some entry =>
        if req.now - entry.ts < CACHE_TTL_MS then
          { response := Response.json base amount (convert rt amount entry.rates)
              "cache".toList (some entry.ts),
            calls := [], cache := cache }
        else tryExchangerateHost rt P cache base amount symbolsList key req.now
      | none => tryExchangerateHost rt P cache base amount symbolsList key req.now

/-- The cache states the server can be in: the empty object at start-up, and
the cache left by serving any request, at any time and with any upstream
behaviour, from such a state. -/
inductive Reachable {V : Type} (rt : Runtime V) : Cache V → Prop where
  | init : Reachable rt []
  | step (P : Providers V) (cache : Cache V) (req : Request) :
      Reachable rt cache → Reachable rt (currency rt P cache req).cache

/-! ## Vocabulary of the statements -/

/-- The request passes the three input checks: the amount is a number that is
not negative, the base is allow-listed and some symbol is allow-listed. -/
def ValidInput {V : Type} (rt : Runtime V) (req : Request) : Prop :=
  ((parseAmount req.amount).isNaN || (parseAmount req.amount).ltZero) = false ∧
  normBase rt req ∈ ALLOW ∧ allowedSymbols rt req ≠ []

/-- The cache key of a request. -/
def requestKey {V : Type} (rt : Runtime V) (req : Request) : Str :=
  cacheKey (normBase rt req) (targets rt req)

/-- The entry the cache lookup of the handler accepts for `key` at time `now`:
the stored one when its age is below the time to live. -/
def liveEntry {V : Type} (cache : Cache V) (key : Str) (now : Int) : Option (CacheEntry V) :=
  match JsObj.get cache key with
  | some entry => if now - entry.ts < CACHE_TTL_MS then some entry else none
  | none => none

/-- The rate table a provider's answer carries for the handler, if any: the
truthy `rates` of the first two, and for the third the truthy `rates` of an
answer whose `result` is `success`. -/
def offered {V : Type} (P : Providers V) (base : Str) (symbolsList : List Str) :
    ProviderId → Option (JsObj (Option V))
  | ProviderId.exchangerateHost => (P.exchangerateHost base (joinComma symbolsList)).rates
  | ProviderId.frankfurter => (P.frankfurter base (joinComma symbolsList)).rates
  | ProviderId.openErApi =>
    match P.openErApi base with
    | Reply.data { result := some r, rates := some tbl } =>
      if r = "success".toList then some tbl else none
    | _ => none

/-- A provider fails for a request: transport error, malformed or absent
answer (no table is offered), or no usable rates (the offered table has no
non-null rate for any requested symbol). -/
def providerFails {V : Type} (P : Providers V) (base : Str) (symbolsList : List Str)
    (p : ProviderId) : Prop :=
  match offered P base symbolsList p with
  | some tbl => pick symbolsList tbl = []
  | none => True

/-- A provider succeeds for a request with the table `tbl`: it offers `tbl`
and the projection of `tbl` on the requested symbols is not empty. -/
def providerSucceeds {V : Type} (P : Providers V) (base : Str) (symbolsList : List Str)
    (p : ProviderId) (tbl : JsObj (Option V)) : Prop :=
  offered P base symbolsList p = some tbl ∧ pick symbolsList tbl ≠ []

/-- The providers called when the chain stops at `p`. -/
def ProviderId.chainUpTo : ProviderId → List ProviderId
  | ProviderId.exchangerateHost => [ProviderId.exchangerateHost]
  | ProviderId.frankfurter => [ProviderId.exchangerateHost, ProviderId.frankfurter]
  | ProviderId.openErApi =>
    [ProviderId.exchangerateHost, ProviderId.frankfurter, ProviderId.openErApi]

/-- The chain gets as far as `p`: every earlier provider offered no table. -/
def reached {V : Type} (P : Providers V) (base : Str) (symbolsList : List Str) :
    ProviderId → Prop
  | ProviderId.exchangerateHost => True
  | ProviderId.frankfurter => offered P base symbolsList ProviderId.exchangerateHost = none
  | ProviderId.openErApi =>
    offered P base symbolsList ProviderId.exchangerateHost = none ∧
    offered P base symbolsList ProviderId.frankfurter = none

/-- The outcome of a request served by provider `p` from the table `tbl`:
the conversions of the projected table, `source` the provider's name, no
`cachedAt`, the chain called up to `p`, and the projection stored under `key`. -/
def served {V : Type} (rt : Runtime V) (cache : Cache V) (base : Str) (amount : JsNum)
    (symbolsList : List Str) (key : Str) (now : Int) (p : ProviderId)
    (tbl : JsObj (Option V)) : Outcome V :=
  { response := Response.json base amount (convert rt amount (pick symbolsList tbl)) p.name none,
    calls := p.chainUpTo,
    cache := JsObj.set cache key { ts := now, rates := pick symbolsList tbl } }

/-- The outcome of a request refused with status 502 after the chain stopped
at `p`: the cache is the one before. -/
def refused {V : Type} (cache : Cache V) (p : ProviderId) (kind : ErrorKind) : Outcome V :=
  { response := Response.error 502 kind, calls := p.chainUpTo, cache := cache }

/-- The invariant of the cache: every entry is stored under the key of some
allow-listed base and some list of allow-listed targets other than that base,
and its rate table is not empty and has its keys among those targets. -/
def CacheInv {V : Type} (cache : Cache V) : Prop :=
  ∀ k entry, JsObj.get cache k = some entry →
    ∃ b ts, k = cacheKey b ts ∧ b ∈ ALLOW ∧ (∀ t ∈ ts, t ∈ ALLOW ∧ t ≠ b) ∧
      (∀ x ∈ JsObj.keys entry.rates, x ∈ ts) ∧ entry.rates ≠ []

/-- The provenance of the cache: every entry is stored under the key of some
allow-listed base and some list of allow-listed targets other than that base,
and its rate table is the non-empty projection on those targets of some
upstream table, that is, its bindings are the non-null members of that
table at the targets. -/
def CacheProjected {V : Type} (cache : Cache V) : Prop :=
  ∀ k entry, JsObj.get cache k = some entry →
    ∃ b ts, ∃ tbl : JsObj (Option V), k = cacheKey b ts ∧ b ∈ ALLOW ∧
      (∀ t ∈ ts, t ∈ ALLOW ∧ t ≠ b) ∧ entry.rates = pick ts tbl ∧ entry.rates ≠ []

/-- A runtime for evaluating the handler on examples: rates are natural
numbers, the product with a natural amount is exact and `toFixed6` is the
identity on them; non-ASCII characters are their own upper case. -/
def natRuntime : Runtime Nat where
  upper := fun c => [c]
  times := fun a r =>
    match a with
    | JsNum.dec false m 0 => m * r
    | _ => 0
  toFixed6 := fun x => x

/-- An upstream world for examples: every service rejects. -/
def allDown : Providers Nat where
  exchangerateHost := fun _ _ => Reply.threw
  frankfurter := fun _ _ => Reply.threw
  openErApi := fun _ => Reply.threw

/-- An upstream world for examples: the first service answers with the rates
`USD = 2` and `EUR = 3`, the others reject. -/
def firstUp : Providers Nat where
  exchangerateHost := fun _ _ =>
    Reply.data { result := none, rates := some [("USD".toList, some 2), ("EUR".toList, some 3)] }
  frankfurter := fun _ _ => Reply.threw
  openErApi := fun _ => Reply.threw

/-- An upstream world for examples: the first service answers with a table
that has a rate for `GBP` only, the second with `USD = 2` and `EUR = 3`. -/
def firstOffTarget : Providers Nat where
  exchangerateHost := fun _ _ =>
    Reply.data { result := none, rates := some [("GBP".toList, some 5)] }
  frankfurter := fun _ _ =>
    Reply.data { result := none, rates := some [("USD".toList, some 2), ("EUR".toList, some 3)] }
  openErApi := fun _ => Reply.threw

/-- An upstream world for examples: the first service answers with an empty
table. -/
def firstEmpty : Providers Nat where
  exchangerateHost := fun _ _ => Reply.data { result := none, rates := some [] }
  frankfurter := fun _ _ => Reply.threw
  openErApi := fun _ => Reply.threw

/-! ## Objects: reading after writing -/

theorem JsObj.get_set_self {α : Type} (o : JsObj α) (k : Str) (v : α) :
    JsObj.get (JsObj.set o k v) k = some v := by
  induction o with
  | nil => simp [JsObj.set, JsObj.get]
  | cons hd tl ih =>
    obtain ⟨k0, v0⟩ := hd
    by_cases h : k0 = k
    · simp [JsObj.set, JsObj.get, h]
    · simp [JsObj.set, JsObj.get, h, ih]

theorem JsObj.get_set_ne {α : Type} (o : JsObj α) (k k2 : Str) (v : α) (hne : k ≠ k2) :
    JsObj.get (JsObj.set o k v) k2 = JsObj.get o k2 := by
  induction o with
  | nil => simp [JsObj.set, JsObj.get, hne]
  | cons hd tl ih =>
    obtain ⟨k0, v0⟩ := hd
    by_cases h : k0 = k
    · subst h
      simp [JsObj.set, JsObj.get, hne]
    · by_cases h2 : k0 = k2
      · subst h2
        simp [JsObj.set, JsObj.get, h]
      · simp [JsObj.set, JsObj.get, h, h2, ih]

theorem JsObj.get_eq_none_iff {α : Type} (o : JsObj α) (k : Str) :
    JsObj.get o k = none ↔ k ∉ JsObj.keys o := by
  induction o with
  | nil => simp [JsObj.get, JsObj.keys]
  | cons hd tl ih =>
    obtain ⟨k0, v0⟩ := hd
    have hk : JsObj.keys ((k0, v0) :: tl) = k0 :: JsObj.keys tl := rfl
    rw [hk, List.mem_cons]
    by_cases h : k0 = k
    · subst h
      have hg : JsObj.get ((k0, v0) :: tl) k0 = some v0 := by simp [JsObj.get]
      rw [hg]
      constructor
      · intro hc; cases hc
      · intro hc; exact absurd (Or.inl rfl) hc
    · simp only [JsObj.get, if_neg h]
      rw [ih]
      constructor
      · intro hn hc
        rcases hc with hc | hc
        · exact h hc.symm
        · exact hn hc
      · intro hn hc
        exact hn (Or.inr hc)

theorem JsObj.mem_keys_iff {α : Type} (o : JsObj α) (k : Str) :
    k ∈ JsObj.keys o ↔ ∃ v, JsObj.get o k = some v := by
  have h := JsObj.get_eq_none_iff o k
  cases hg : JsObj.get o k with
  | none =>
    rw [hg] at h
    constructor
    · intro hm; exact absurd hm (h.mp rfl)
    · intro hv; obtain ⟨v, hv⟩ := hv; cases hv
  | some v =>
    rw [hg] at h
    constructor
    · intro _; exact ⟨v, rfl⟩
    · intro _
      by_contra hc
      have := h.mpr hc
      cases this

theorem JsObj.keys_eq_nil {α : Type} (o : JsObj α) : JsObj.keys o = [] ↔ o = [] := by
  cases o with
  | nil => exact ⟨fun _ => rfl, fun _ => rfl⟩
  | cons hd tl =>
    constructor
    · intro h; cases h
    · intro h; cases h

/-! ## The two loops: `convert` and `pick` -/

theorem convert_fold_get {V : Type} (rt : Runtime V) (amount : JsNum) (rates : JsObj V)
    (ks : List Str) (acc : JsObj V) (k : Str) :
    JsObj.get
      (ks.foldl
        (fun acc k =>
          match JsObj.get rates k with
          | some r => JsObj.set acc k (rt.toFixed6 (rt.times amount r))
          | none => acc)
        acc) k
      = match JsObj.get rates k with
        | some r => if k ∈ ks then some (rt.toFixed6 (rt.times amount r)) else JsObj.get acc k
        | none => JsObj.get acc k := by
  induction ks generalizing acc with
  | nil => cases JsObj.get rates k <;> simp
  | cons x xs ih =>
    rw [List.foldl_cons, ih]
    by_cases hx : x = k
    · subst hx
      cases hr : JsObj.get rates x with
      | none => simp
      | some r => simp [JsObj.get_set_self]
    · have hx2 : ¬ k = x := fun e => hx e.symm
      cases hr : JsObj.get rates k with
      | none =>
        cases hrx : JsObj.get rates x with
        | none => simp
        | some rx => simp [JsObj.get_set_ne _ _ _ _ hx]
      | some r =>
        cases hrx : JsObj.get rates x with
        | none => simp [hx2]
        | some rx => simp [JsObj.get_set_ne _ _ _ _ hx, hx2]

/-- Reading a conversion: the rounded product of the amount with the rate under
the same key, and nothing under a key the rate table does not have. -/
theorem get_convert {V : Type} (rt : Runtime V) (amount : JsNum) (rates : JsObj V) (k : Str) :
    JsObj.get (convert rt amount rates) k
      = (JsObj.get rates k).map (fun r => rt.toFixed6 (rt.times amount r)) := by
  unfold convert
  rw [convert_fold_get]
  cases hr : JsObj.get rates k with
  | none => simp [JsObj.get]
  | some r =>
    have hk : k ∈ JsObj.keys rates := (JsObj.mem_keys_iff rates k).mpr ⟨r, hr⟩
    simp [hk]

/-- The conversions have exactly the keys of the rate table. -/
theorem mem_keys_convert {V : Type} (rt : Runtime V) (amount : JsNum) (rates : JsObj V)
    (k : Str) : k ∈ JsObj.keys (convert rt amount rates) ↔ k ∈ JsObj.keys rates := by
  rw [JsObj.mem_keys_iff, JsObj.mem_keys_iff, get_convert]
  cases hr : JsObj.get rates k with
  | none => simp
  | some r => simp

theorem pick_fold_get {V : Type} (tbl : JsObj (Option V)) (syms : List Str) (acc : JsObj V)
    (k : Str) :
    JsObj.get
      (syms.foldl
        (fun acc s =>
          match JsObj.get tbl s with
          | some (some r) => JsObj.set acc s r
          | _ => acc)
        acc) k
      = match JsObj.get tbl k with
        | some (some r) => if k ∈ syms then some r else JsObj.get acc k
        | _ => JsObj.get acc k := by
  induction syms generalizing acc with
  | nil => rcases JsObj.get tbl k with _ | _ | _ <;> simp
  | cons x xs ih =>
    rw [List.foldl_cons, ih]
    by_cases hx : x = k
    · subst hx
      rcases hr : JsObj.get tbl x with _ | _ | r
      · simp
      · simp
      · simp [JsObj.get_set_self]
    · have hx2 : ¬ k = x := fun e => hx e.symm
      rcases hr : JsObj.get tbl k with _ | _ | r
      · rcases hrx : JsObj.get tbl x with _ | _ | rx
        · simp
        · simp
        · simp [JsObj.get_set_ne _ _ _ _ hx]
      · rcases hrx : JsObj.get tbl x with _ | _ | rx
        · simp
        · simp
        · simp [JsObj.get_set_ne _ _ _ _ hx]
      · rcases hrx : JsObj.get tbl x with _ | _ | rx
        · simp [hx2]
        · simp [hx2]
        · simp [JsObj.get_set_ne _ _ _ _ hx, hx2]

/-- Reading a projected table: the non-null upstream rate of a requested
symbol, and nothing otherwise. -/
theorem get_pick {V : Type} (syms : List Str) (tbl : JsObj (Option V)) (k : Str) :
    JsObj.get (pick syms tbl) k = if k ∈ syms then (JsObj.get tbl k).join else none := by
  unfold pick
  rw [pick_fold_get]
  rcases hr : JsObj.get tbl k with _ | _ | r
  · simp [JsObj.get]
  · simp [JsObj.get]
  · by_cases hk : k ∈ syms
    · simp [hk]
    · simp [hk, JsObj.get]

/-- Every key of a projected table is a requested symbol. -/
theorem mem_keys_pick {V : Type} (syms : List Str) (tbl : JsObj (Option V)) (k : Str)
    (hk : k ∈ JsObj.keys (pick syms tbl)) : k ∈ syms := by
  rw [JsObj.mem_keys_iff, get_pick] at hk
  obtain ⟨v, hv⟩ := hk
  by_contra hc
  simp [hc] at hv

theorem get_asTable {V : Type} (o : JsObj V) (k : Str) :
    JsObj.get (asTable o) k = (JsObj.get o k).map some := by
  induction o with
  | nil => simp [asTable, JsObj.get]
  | cons hd tl ih =>
    obtain ⟨k0, v0⟩ := hd
    have hc : asTable ((k0, v0) :: tl) = (k0, some v0) :: asTable tl := rfl
    rw [hc]
    by_cases h : k0 = k
    · simp [JsObj.get, h]
    · simp [JsObj.get, h, ih]

/-- Projecting a projected table again changes no reading. -/
theorem get_pick_asTable {V : Type} (syms : List Str) (tbl : JsObj (Option V)) (k : Str) :
    JsObj.get (pick syms (asTable (pick syms tbl))) k = JsObj.get (pick syms tbl) k := by
  rw [get_pick, get_asTable, get_pick]
  by_cases hk : k ∈ syms
  · simp only [if_pos hk]
    rcases JsObj.get tbl k with _ | _ | r <;> rfl
  · simp only [if_neg hk]

theorem pick_asTable_ne_nil {V : Type} (syms : List Str) (tbl : JsObj (Option V))
    (h : pick syms tbl ≠ []) : pick syms (asTable (pick syms tbl)) ≠ [] := by
  intro hc
  cases hp : pick syms tbl with
  | nil => exact h hp
  | cons hd tl =>
    have h1 : hd.1 ∈ JsObj.keys (pick syms tbl) := by
      rw [hp]; exact List.mem_cons_self _ _
    obtain ⟨v, hv⟩ := (JsObj.mem_keys_iff _ _).mp h1
    have h2 := get_pick_asTable syms tbl hd.1
    rw [hc, hv] at h2
    simp [JsObj.get] at h2

/-! ## The handler, stage by stage -/

/-- An amount that is not a number or is negative ends the request at once. -/
theorem currency_of_bad_amount {V : Type} (rt : Runtime V) (P : Providers V) (cache : Cache V)
    (req : Request)
    (h : ((parseAmount req.amount).isNaN || (parseAmount req.amount).ltZero) = true) :
    currency rt P cache req
      = { response := Response.error 400 ErrorKind.invalidAmount, calls := [], cache := cache } := by
  unfold currency
  simp only [h, if_true]

/-- With a good amount, a base outside the allow-list ends the request. -/
theorem currency_of_bad_base {V : Type} (rt : Runtime V) (P : Providers V) (cache : Cache V)
    (req : Request)
    (ha : ((parseAmount req.amount).isNaN || (parseAmount req.amount).ltZero) = false)
    (hb : normBase rt req ∉ ALLOW) :
    currency rt P cache req
      = { response := Response.error 400 ErrorKind.unsupportedBase, calls := [],
          cache := cache } := by
  unfold currency
  simp only [ha, Bool.false_eq_true, if_false, hb, not_false_eq_true, if_true]

/-- With a good amount and base, an empty allow-listed symbol list ends the
request. -/
theorem currency_of_no_symbols {V : Type} (rt : Runtime V) (P : Providers V) (cache : Cache V)
    (req : Request)
    (ha : ((parseAmount req.amount).isNaN || (parseAmount req.amount).ltZero) = false)
    (hb : normBase rt req ∈ ALLOW) (hs : allowedSymbols rt req = []) :
    currency rt P cache req
      = { response := Response.error 400 ErrorKind.noValidTargets, calls := [],
          cache := cache } := by
  unfold currency
  simp only [ha, Bool.false_eq_true, if_false, hb, not_true_eq_false, hs, if_true]

/-- A request that passes the input checks is answered from a live cache entry
under its key, and goes to the provider chain when there is none. -/
theorem currency_of_valid {V : Type} (rt : Runtime V) (P : Providers V) (cache : Cache V)
    (req : Request) (hv : ValidInput rt req) :
    currency rt P cache req
      = match liveEntry cache (requestKey rt req) req.now with
        | some entry =>
          { response := Response.json (normBase rt req) (parseAmount req.amount)
              (convert rt (parseAmount req.amount) entry.rates) "cache".toList (some entry.ts),
            calls := [], cache := cache }
        | none =>
          tryExchangerateHost rt P cache (normBase rt req) (parseAmount req.amount)
            (targets rt req) (requestKey rt req) req.now := by
  obtain ⟨ha, hb, hs⟩ := hv
  unfold currency liveEntry requestKey
  simp only [ha, Bool.false_eq_true, if_false, hb, not_true_eq_false, hs]
  cases hg : JsObj.get cache (cacheKey (normBase rt req) (targets rt req)) with
  | none => rfl
  | some entry =>
    by_cases ht : req.now - entry.ts < CACHE_TTL_MS
    · simp only [ht, if_true]
    · simp only [ht, if_false]

/-- The input checks fail exactly when the handler answers 400 without touching
anything. -/
theorem currency_of_invalid {V : Type} (rt : Runtime V) (P : Providers V) (cache : Cache V)
    (req : Request) (hv : ¬ ValidInput rt req) :
    ∃ kind, currency rt P cache req
      = { response := Response.error 400 kind, calls := [], cache := cache } := by
  by_cases ha : ((parseAmount req.amount).isNaN || (parseAmount req.amount).ltZero) = true
  · exact ⟨_, currency_of_bad_amount rt P cache req ha⟩
  · have ha2 : ((parseAmount req.amount).isNaN || (parseAmount req.amount).ltZero) = false := by
      cases hh : ((parseAmount req.amount).isNaN || (parseAmount req.amount).ltZero)
      · rfl
      · exact absurd hh ha
    by_cases hb : normBase rt req ∈ ALLOW
    · by_cases hs : allowedSymbols rt req = []
      · exact ⟨_, currency_of_no_symbols rt P cache req ha2 hb hs⟩
      · exact absurd ⟨ha2, hb, hs⟩ hv
    · exact ⟨_, currency_of_bad_base rt P cache req ha2 hb⟩

/-- The helper `respondWithRates` when the projection is empty. -/
theorem respondWithRates_of_empty {V : Type} (rt : Runtime V) (cache : Cache V) (base : Str)
    (amount : JsNum) (syms : List Str) (key : Str) (now : Int) (calls : List ProviderId)
    (p : ProviderId) (tbl : JsObj (Option V)) (h : pick syms tbl = []) :
    respondWithRates rt cache base amount syms key now calls p tbl
      = { response := Response.error 502 ErrorKind.noUsableRates, calls := calls,
          cache := cache } := by
  unfold respondWithRates
  simp only [h]
  rfl

/-- The helper `respondWithRates` when the projection is not empty. -/
theorem respondWithRates_of_ne {V : Type} (rt : Runtime V) (cache : Cache V) (base : Str)
    (amount : JsNum) (syms : List Str) (key : Str) (now : Int) (calls : List ProviderId)
    (p : ProviderId) (tbl : JsObj (Option V)) (h : pick syms tbl ≠ []) :
    respondWithRates rt cache base amount syms key now calls p tbl
      = { response := Response.json base amount (convert rt amount (pick syms tbl)) p.name none,
          calls := calls,
          cache := JsObj.set cache key { ts := now, rates := pick syms tbl } } := by
  unfold respondWithRates
  have hk : ¬ JsObj.keys (pick syms tbl) = [] := fun hc => h ((JsObj.keys_eq_nil _).mp hc)
  simp only [hk, if_false]

/-! ## The provider chain -/

/-- The helper `respondWithRates` calls no provider. -/
theorem respondWithRates_calls {V : Type} (rt : Runtime V) (cache : Cache V) (base : Str)
    (amount : JsNum) (syms : List Str) (key : Str) (now : Int) (calls : List ProviderId)
    (p : ProviderId) (tbl : JsObj (Option V)) :
    (respondWithRates rt cache base amount syms key now calls p tbl).calls = calls := by
  unfold respondWithRates
  by_cases hk : JsObj.keys (pick syms tbl) = []
  · simp only [hk, if_true]
  · simp only [hk, if_false]

/-- Projecting the projection of a table gives the projection again. -/
theorem pick_asTable_pick {V : Type} (syms : List Str) (tbl : JsObj (Option V)) :
    pick syms (asTable (pick syms tbl)) = pick syms tbl := by
  have key : ∀ (l : List Str) (acc : JsObj V), (∀ s ∈ l, s ∈ syms) →
      l.foldl
        (fun acc s =>
          match JsObj.get (asTable (pick syms tbl)) s with
          | some (some r) => JsObj.set acc s r
          | _ => acc) acc
      = l.foldl
        (fun acc s =>
          match JsObj.get tbl s with
          | some (some r) => JsObj.set acc s r
          | _ => acc) acc := by
    intro l
    induction l with
    | nil => intro acc _; rfl
    | cons x xs ih =>
      intro acc hl
      have hx : x ∈ syms := hl x (List.mem_cons_self _ _)
      have hxs : ∀ s ∈ xs, s ∈ syms := fun s hs => hl s (List.mem_cons_of_mem _ hs)
      rw [List.foldl_cons, List.foldl_cons, ih _ hxs]
      congr 1
      rw [get_asTable, get_pick, if_pos hx]
      rcases JsObj.get tbl x with _ | _ | r <;> rfl
  exact key syms [] (fun s hs => hs)

theorem tryOpenErApi_of_none {V : Type} (rt : Runtime V) (P : Providers V) (cache : Cache V)
    (base : Str) (amount : JsNum) (syms : List Str) (key : Str) (now : Int)
    (h : offered P base syms ProviderId.openErApi = none) :
    tryOpenErApi rt P cache base amount syms key now
      = allFailed cache
          [ProviderId.exchangerateHost, ProviderId.frankfurter, ProviderId.openErApi] := by
  unfold offered at h
  unfold tryOpenErApi
  rcases hr : P.openErApi base with _ | ⟨⟨_ | r, _ | tbl⟩⟩
  · rfl
  · rfl
  · rfl
  · rfl
  · rw [hr] at h
    by_cases hs : r = "success".toList
    · simp only [hs, if_true] at h
      cases h
    · simp only [hs, if_false]

theorem tryOpenErApi_of_empty {V : Type} (rt : Runtime V) (P : Providers V) (cache : Cache V)
    (base : Str) (amount : JsNum) (syms : List Str) (key : Str) (now : Int)
    (tbl : JsObj (Option V)) (h : offered P base syms ProviderId.openErApi = some tbl)
    (hp : pick syms tbl = []) :
    tryOpenErApi rt P cache base amount syms key now
      = allFailed cache
          [ProviderId.exchangerateHost, ProviderId.frankfurter, ProviderId.openErApi] := by
  unfold offered at h
  unfold tryOpenErApi
  rcases hr : P.openErApi base with _ | ⟨⟨_ | r, _ | tbl2⟩⟩
  · rfl
  · rfl
  · rfl
  · rfl
  · rw [hr] at h
    by_cases hs : r = "success".toList
    · simp only [hs, if_true, Option.some.injEq] at h
      subst h
      have hk : JsObj.keys (pick syms tbl2) = [] := (JsObj.keys_eq_nil _).mpr hp
      simp only [hs, if_true, hk, ne_eq, not_true_eq_false, if_false]
    · simp only [hs, if_false]

theorem tryOpenErApi_of_ok {V : Type} (rt : Runtime V) (P : Providers V) (cache : Cache V)
    (base : Str) (amount : JsNum) (syms : List Str) (key : Str) (now : Int)
    (tbl : JsObj (Option V)) (h : offered P base syms ProviderId.openErApi = some tbl)
    (hp : pick syms tbl ≠ []) :
    tryOpenErApi rt P cache base amount syms key now
      = { response := Response.json base amount (convert rt amount (pick syms tbl))
            ProviderId.openErApi.name none,
          calls := [ProviderId.exchangerateHost, ProviderId.frankfurter, ProviderId.openErApi],
          cache := JsObj.set cache key { ts := now, rates := pick syms tbl } } := by
  unfold offered at h
  unfold tryOpenErApi
  rcases hr : P.openErApi base with _ | ⟨⟨_ | r, _ | tbl2⟩⟩
  · rw [hr] at h; cases h
  · rw [hr] at h; cases h
  · rw [hr] at h; cases h
  · rw [hr] at h; cases h
  · rw [hr] at h
    by_cases hs : r = "success".toList
    · simp only [hs, if_true, Option.some.injEq] at h
      subst h
      have hk : ¬ JsObj.keys (pick syms tbl2) = [] :=
        fun hc => hp ((JsObj.keys_eq_nil _).mp hc)
      simp only [hs, if_true, hk, ne_eq, not_false_eq_true]
      rw [respondWithRates_of_ne, pick_asTable_pick]
      rw [pick_asTable_pick]
      exact hp
    · simp only [hs, if_false] at h
      cases h

theorem tryFrankfurter_of_none {V : Type} (rt : Runtime V) (P : Providers V) (cache : Cache V)
    (base : Str) (amount : JsNum) (syms : List Str) (key : Str) (now : Int)
    (h : offered P base syms ProviderId.frankfurter = none) :
    tryFrankfurter rt P cache base amount syms key now
      = tryOpenErApi rt P cache base amount syms key now := by
  have h2 : (P.frankfurter base (joinComma syms)).rates = none := h
  unfold tryFrankfurter
  rw [h2]

theorem tryFrankfurter_of_some {V : Type} (rt : Runtime V) (P : Providers V) (cache : Cache V)
    (base : Str) (amount : JsNum) (syms : List Str) (key : Str) (now : Int)
    (tbl : JsObj (Option V)) (h : offered P base syms ProviderId.frankfurter = some tbl) :
    tryFrankfurter rt P cache base amount syms key now
      = respondWithRates rt cache base amount syms key now
          [ProviderId.exchangerateHost, ProviderId.frankfurter] ProviderId.frankfurter tbl := by
  have h2 : (P.frankfurter base (joinComma syms)).rates = some tbl := h
  unfold tryFrankfurter
  rw [h2]

theorem tryExchangerateHost_of_none {V : Type} (rt : Runtime V) (P : Providers V)
    (cache : Cache V) (base : Str) (amount : JsNum) (syms : List Str) (key : Str) (now : Int)
    (h : offered P base syms ProviderId.exchangerateHost = none) :
    tryExchangerateHost rt P cache base amount syms key now
      = tryFrankfurter rt P cache base amount syms key now := by
  have h2 : (P.exchangerateHost base (joinComma syms)).rates = none := h
  unfold tryExchangerateHost
  rw [h2]

theorem tryExchangerateHost_of_some {V : Type} (rt : Runtime V) (P : Providers V)
    (cache : Cache V) (base : Str) (amount : JsNum) (syms : List Str) (key : Str) (now : Int)
    (tbl : JsObj (Option V)) (h : offered P base syms ProviderId.exchangerateHost = some tbl) :
    tryExchangerateHost rt P cache base amount syms key now
      = respondWithRates rt cache base amount syms key now
          [ProviderId.exchangerateHost] ProviderId.exchangerateHost tbl := by
  have h2 : (P.exchangerateHost base (joinComma syms)).rates = some tbl := h
  unfold tryExchangerateHost
  rw [h2]

/-- Once the third provider is tried, all three have been called. -/
theorem tryOpenErApi_calls {V : Type} (rt : Runtime V) (P : Providers V) (cache : Cache V)
    (base : Str) (amount : JsNum) (syms : List Str) (key : Str) (now : Int) :
    (tryOpenErApi rt P cache base amount syms key now).calls
      = [ProviderId.exchangerateHost, ProviderId.frankfurter, ProviderId.openErApi] := by
  cases ho : offered P base syms ProviderId.openErApi with
  | none => rw [tryOpenErApi_of_none _ _ _ _ _ _ _ _ ho]; rfl
  | some tbl =>
    by_cases hp : pick syms tbl = []
    · rw [tryOpenErApi_of_empty _ _ _ _ _ _ _ _ _ ho hp]; rfl
    · rw [tryOpenErApi_of_ok _ _ _ _ _ _ _ _ _ ho hp]

/-- Once the second provider is tried, the calls are the first two providers,
or all three. -/
theorem tryFrankfurter_calls {V : Type} (rt : Runtime V) (P : Providers V) (cache : Cache V)
    (base : Str) (amount : JsNum) (syms : List Str) (key : Str) (now : Int) :
    ((tryFrankfurter rt P cache base amount syms key now).calls
        = [ProviderId.exchangerateHost, ProviderId.frankfurter] ∧
      ∃ tbl, offered P base syms ProviderId.frankfurter = some tbl) ∨
    ((tryFrankfurter rt P cache base amount syms key now).calls
        = [ProviderId.exchangerateHost, ProviderId.frankfurter, ProviderId.openErApi] ∧
      offered P base syms ProviderId.frankfurter = none) := by
  cases hB : offered P base syms ProviderId.frankfurter with
  | none =>
    right
    rw [tryFrankfurter_of_none _ _ _ _ _ _ _ _ hB]
    exact ⟨tryOpenErApi_calls _ _ _ _ _ _ _ _, rfl⟩
  | some tbl =>
    left
    rw [tryFrankfurter_of_some _ _ _ _ _ _ _ _ _ hB]
    exact ⟨respondWithRates_calls _ _ _ _ _ _ _ _ _ _, tbl, rfl⟩

/-- The calls of the chain: the first provider alone when it offers a table,
otherwise those of the rest of the chain. -/
theorem tryExchangerateHost_calls {V : Type} (rt : Runtime V) (P : Providers V)
    (cache : Cache V) (base : Str) (amount : JsNum) (syms : List Str) (key : Str) (now : Int) :
    ((tryExchangerateHost rt P cache base amount syms key now).calls
        = [ProviderId.exchangerateHost] ∧
      ∃ tbl, offered P base syms ProviderId.exchangerateHost = some tbl) ∨
    ((tryExchangerateHost rt P cache base amount syms key now).calls
        = [ProviderId.exchangerateHost, ProviderId.frankfurter] ∧
      offered P base syms ProviderId.exchangerateHost = none ∧
      ∃ tbl, offered P base syms ProviderId.frankfurter = some tbl) ∨
    ((tryExchangerateHost rt P cache base amount syms key now).calls
        = [ProviderId.exchangerateHost, ProviderId.frankfurter, ProviderId.openErApi] ∧
      offered P base syms ProviderId.exchangerateHost = none ∧
      offered P base syms ProviderId.frankfurter = none) := by
  cases hA : offered P base syms ProviderId.exchangerateHost with
  | some tbl =>
    left
    rw [tryExchangerateHost_of_some _ _ _ _ _ _ _ _ _ hA]
    exact ⟨respondWithRates_calls _ _ _ _ _ _ _ _ _ _, tbl, rfl⟩
  | none =>
    right
    rw [tryExchangerateHost_of_none _ _ _ _ _ _ _ _ hA]
    rcases tryFrankfurter_calls rt P cache base amount syms key now with ⟨h1, h2⟩ | ⟨h1, h2⟩
    · left; exact ⟨h1, rfl, h2⟩
    · right; exact ⟨h1, rfl, h2⟩

/-- The first provider offers a table without usable rates: 502 at once. -/
theorem chain_first_empty {V : Type} (rt : Runtime V) (P : Providers V) (cache : Cache V)
    (base : Str) (amount : JsNum) (syms : List Str) (key : Str) (now : Int)
    (tbl : JsObj (Option V)) (h : offered P base syms ProviderId.exchangerateHost = some tbl)
    (hp : pick syms tbl = []) :
    tryExchangerateHost rt P cache base amount syms key now
      = refused cache ProviderId.exchangerateHost ErrorKind.noUsableRates := by
  rw [tryExchangerateHost_of_some _ _ _ _ _ _ _ _ _ h, respondWithRates_of_empty _ _ _ _ _ _ _ _ _ _ hp]
  rfl

/-- The first provider offers usable rates: it serves the request. -/
theorem chain_first_ok {V : Type} (rt : Runtime V) (P : Providers V) (cache : Cache V)
    (base : Str) (amount : JsNum) (syms : List Str) (key : Str) (now : Int)
    (tbl : JsObj (Option V)) (h : offered P base syms ProviderId.exchangerateHost = some tbl)
    (hp : pick syms tbl ≠ []) :
    tryExchangerateHost rt P cache base amount syms key now
      = served rt cache base amount syms key now ProviderId.exchangerateHost tbl := by
  rw [tryExchangerateHost_of_some _ _ _ _ _ _ _ _ _ h, respondWithRates_of_ne _ _ _ _ _ _ _ _ _ _ hp]
  rfl

/-- The second provider, once reached, offers a table without usable rates:
502 at once. -/
theorem chain_second_empty {V : Type} (rt : Runtime V) (P : Providers V) (cache : Cache V)
    (base : Str) (amount : JsNum) (syms : List Str) (key : Str) (now : Int)
    (tbl : JsObj (Option V)) (hA : offered P base syms ProviderId.exchangerateHost = none)
    (h : offered P base syms ProviderId.frankfurter = some tbl) (hp : pick syms tbl = []) :
    tryExchangerateHost rt P cache base amount syms key now
      = refused cache ProviderId.frankfurter ErrorKind.noUsableRates := by
  rw [tryExchangerateHost_of_none _ _ _ _ _ _ _ _ hA, tryFrankfurter_of_some _ _ _ _ _ _ _ _ _ h,
    respondWithRates_of_empty _ _ _ _ _ _ _ _ _ _ hp]
  rfl

/-- The second provider, once reached, offers usable rates: it serves the
request. -/
theorem chain_second_ok {V : Type} (rt : Runtime V) (P : Providers V) (cache : Cache V)
    (base : Str) (amount : JsNum) (syms : List Str) (key : Str) (now : Int)
    (tbl : JsObj (Option V)) (hA : offered P base syms ProviderId.exchangerateHost = none)
    (h : offered P base syms ProviderId.frankfurter = some tbl) (hp : pick syms tbl ≠ []) :
    tryExchangerateHost rt P cache base amount syms key now
      = served rt cache base amount syms key now ProviderId.frankfurter tbl := by
  rw [tryExchangerateHost_of_none _ _ _ _ _ _ _ _ hA, tryFrankfurter_of_some _ _ _ _ _ _ _ _ _ h,
    respondWithRates_of_ne _ _ _ _ _ _ _ _ _ _ hp]
  rfl

/-- The third provider, once reached, fails: 502 after the whole chain. -/
theorem chain_third_fails {V : Type} (rt : Runtime V) (P : Providers V) (cache : Cache V)
    (base : Str) (amount : JsNum) (syms : List Str) (key : Str) (now : Int)
    (hA : offered P base syms ProviderId.exchangerateHost = none)
    (hB : offered P base syms ProviderId.frankfurter = none)
    (hC : providerFails P base syms ProviderId.openErApi) :
    tryExchangerateHost rt P cache base amount syms key now
      = refused cache ProviderId.openErApi ErrorKind.badProviderResponse := by
  rw [tryExchangerateHost_of_none _ _ _ _ _ _ _ _ hA, tryFrankfurter_of_none _ _ _ _ _ _ _ _ hB]
  unfold providerFails at hC
  cases ho : offered P base syms ProviderId.openErApi with
  | none => rw [tryOpenErApi_of_none _ _ _ _ _ _ _ _ ho]; rfl
  | some tbl =>
    rw [ho] at hC
    rw [tryOpenErApi_of_empty _ _ _ _ _ _ _ _ _ ho hC]; rfl

/-- The third provider, once reached, offers usable rates: it serves the
request. -/
theorem chain_third_ok {V : Type} (rt : Runtime V) (P : Providers V) (cache : Cache V)
    (base : Str) (amount : JsNum) (syms : List Str) (key : Str) (now : Int)
    (tbl : JsObj (Option V)) (hA : offered P base syms ProviderId.exchangerateHost = none)
    (hB : offered P base syms ProviderId.frankfurter = none)
    (h : offered P base syms ProviderId.openErApi = some tbl) (hp : pick syms tbl ≠ []) :
    tryExchangerateHost rt P cache base amount syms key now
      = served rt cache base amount syms key now ProviderId.openErApi tbl := by
  rw [tryExchangerateHost_of_none _ _ _ _ _ _ _ _ hA, tryFrankfurter_of_none _ _ _ _ _ _ _ _ hB,
    tryOpenErApi_of_ok _ _ _ _ _ _ _ _ _ h hp]
  rfl

/-- The chain ends in one of two ways: a provider that was reached and
succeeded serves the request, or the request is refused with status 502 at a
provider that was reached and failed, the cache being left as it was. -/
theorem chain_cases {V : Type} (rt : Runtime V) (P : Providers V) (cache : Cache V)
    (base : Str) (amount : JsNum) (syms : List Str) (key : Str) (now : Int) :
    (∃ p tbl, reached P base syms p ∧ providerSucceeds P base syms p tbl ∧
        tryExchangerateHost rt P cache base amount syms key now
          = served rt cache base amount syms key now p tbl) ∨
    (∃ p kind, reached P base syms p ∧ providerFails P base syms p ∧
        tryExchangerateHost rt P cache base amount syms key now = refused cache p kind) := by
  cases hA : offered P base syms ProviderId.exchangerateHost with
  | some tbl =>
    by_cases hp : pick syms tbl = []
    · right
      refine ⟨ProviderId.exchangerateHost, _, trivial, ?_, chain_first_empty _ _ _ _ _ _ _ _ _ hA hp⟩
      unfold providerFails
      rw [hA]; exact hp
    · left
      exact ⟨ProviderId.exchangerateHost, tbl, trivial, ⟨hA, hp⟩,
        chain_first_ok _ _ _ _ _ _ _ _ _ hA hp⟩
  | none =>
    cases hB : offered P base syms ProviderId.frankfurter with
    | some tbl =>
      by_cases hp : pick syms tbl = []
      · right
        refine ⟨ProviderId.frankfurter, _, hA, ?_, chain_second_empty _ _ _ _ _ _ _ _ _ hA hB hp⟩
        unfold providerFails
        rw [hB]; exact hp
      · left
        exact ⟨ProviderId.frankfurter, tbl, hA, ⟨hB, hp⟩,
          chain_second_ok _ _ _ _ _ _ _ _ _ hA hB hp⟩
    | none =>
      cases hC : offered P base syms ProviderId.openErApi with
      | none =>
        right
        have hf : providerFails P base syms ProviderId.openErApi := by
          unfold providerFails; rw [hC]; trivial
        exact ⟨ProviderId.openErApi, _, ⟨hA, hB⟩, hf, chain_third_fails _ _ _ _ _ _ _ _ hA hB hf⟩
      | some tbl =>
        by_cases hp : pick syms tbl = []
        · right
          have hf : providerFails P base syms ProviderId.openErApi := by
            unfold providerFails; rw [hC]; exact hp
          exact ⟨ProviderId.openErApi, _, ⟨hA, hB⟩, hf,
            chain_third_fails _ _ _ _ _ _ _ _ hA hB hf⟩
        · left
          exact ⟨ProviderId.openErApi, tbl, ⟨hA, hB⟩, ⟨hC, hp⟩,
            chain_third_ok _ _ _ _ _ _ _ _ _ hA hB hC hp⟩

/-! ## Successful responses -/

/-- A success body comes about in one of two ways: from a live cache entry
under the key of the request, or from a provider that was reached and
succeeded after a cache miss. In both the request passed the input checks. -/
theorem currency_json_cases {V : Type} (rt : Runtime V) (P : Providers V) (cache : Cache V)
    (req : Request) (base : Str) (amt : JsNum) (conv : JsObj V) (src : Str) (ca : Option Int)
    (h : (currency rt P cache req).response = Response.json base amt conv src ca) :
    ValidInput rt req ∧ base = normBase rt req ∧ amt = parseAmount req.amount ∧
    ((∃ entry, liveEntry cache (requestKey rt req) req.now = some entry ∧
        conv = convert rt amt entry.rates ∧ src = "cache".toList ∧ ca = some entry.ts ∧
        (currency rt P cache req).calls = [] ∧ (currency rt P cache req).cache = cache) ∨
     (liveEntry cache (requestKey rt req) req.now = none ∧
        ∃ p tbl, reached P (normBase rt req) (targets rt req) p ∧
          providerSucceeds P (normBase rt req) (targets rt req) p tbl ∧
          conv = convert rt amt (pick (targets rt req) tbl) ∧ src = p.name ∧ ca = none ∧
          currency rt P cache req
            = served rt cache (normBase rt req) (parseAmount req.amount) (targets rt req)
                (requestKey rt req) req.now p tbl)) := by
  by_cases hv : ValidInput rt req
  · have hc := currency_of_valid rt P cache req hv
    cases hl : liveEntry cache (requestKey rt req) req.now with
    | some entry =>
      rw [hl] at hc
      simp only at hc
      rw [hc] at h
      simp only [Response.json.injEq] at h
      obtain ⟨h1, h2, h3, h4, h5⟩ := h
      refine ⟨hv, h1.symm, h2.symm, Or.inl ⟨entry, rfl, ?_, h4.symm, h5.symm, ?_, ?_⟩⟩
      · rw [← h3, ← h2]
      · rw [hc]
      · rw [hc]
    | none =>
      rw [hl] at hc
      simp only at hc
      rcases chain_cases rt P cache (normBase rt req) (parseAmount req.amount) (targets rt req)
          (requestKey rt req) req.now with ⟨p, tbl, hr, hs, he⟩ | ⟨p, kind, _, _, he⟩
      · rw [hc, he] at h
        simp only [served, Response.json.injEq] at h
        obtain ⟨h1, h2, h3, h4, h5⟩ := h
        refine ⟨hv, h1.symm, h2.symm, Or.inr ⟨rfl, p, tbl, hr, hs, ?_, h4.symm, h5.symm, ?_⟩⟩
        · rw [← h3, ← h2]
        · rw [hc, he]
      · rw [hc, he] at h
        simp only [refused] at h
        cases h
  · obtain ⟨kind, hk⟩ := currency_of_invalid rt P cache req hv
    rw [hk] at h
    cases h

/-! ## Claims about the input checks and the provider chain -/

/-- C1 (defect in the code): for `base=USD&symbols=USD` the list of targets is
empty once the base is dropped from it, yet the handler does not answer 400
"no valid targets": the emptiness test runs before the base is dropped, so
the request goes on to the providers (all three are called here) and is
answered 502. -/
theorem c1_base_as_only_symbol_reaches_providers :
    targets natRuntime
        { amount := none, base := some "USD".toList, symbols := some "USD".toList, now := 0 } = [] ∧
    currency natRuntime allDown []
        { amount := none, base := some "USD".toList, symbols := some "USD".toList, now := 0 }
      = { response := Response.error 502 ErrorKind.badProviderResponse,
          calls := [ProviderId.exchangerateHost, ProviderId.frankfurter, ProviderId.openErApi],
          cache := [] } :=
  ⟨rfl, rfl⟩

/-- C2 (counterexample): the first provider answers with a well-formed table
that has a rate for `GBP` only while `USD,EUR` are requested, and the second
provider would serve the request; the handler answers 502 having called the
first provider only. -/
theorem c2_empty_intersection_stops_chain :
    providerSucceeds firstOffTarget "INR".toList ["USD".toList, "EUR".toList]
        ProviderId.frankfurter [("USD".toList, some 2), ("EUR".toList, some 3)] ∧
    currency natRuntime firstOffTarget []
        { amount := none, base := none, symbols := none, now := 0 }
      = { response := Response.error 502 ErrorKind.noUsableRates,
          calls := [ProviderId.exchangerateHost],
          cache := [] } :=
  ⟨⟨rfl, by decide⟩, rfl⟩

/-- C2 (amended): for a request that passes the input checks and misses the
cache: a provider that offers no table (transport failure, malformed or absent
answer) is passed over and the next one is called; a table from the first or
second provider without a usable rate ends the request at once with 502 "no
usable rates", no later provider being called; and a failure of the third
provider, of whatever kind, ends it with 502 "bad response". The cache is
unchanged in all three refusals. -/
theorem c2_failure_handling_per_provider {V : Type} (rt : Runtime V) (P : Providers V)
    (cache : Cache V) (req : Request) (hv : ValidInput rt req)
    (hm : liveEntry cache (requestKey rt req) req.now = none) :
    (offered P (normBase rt req) (targets rt req) ProviderId.exchangerateHost = none →
      ProviderId.frankfurter ∈ (currency rt P cache req).calls) ∧
    (offered P (normBase rt req) (targets rt req) ProviderId.exchangerateHost = none →
      offered P (normBase rt req) (targets rt req) ProviderId.frankfurter = none →
      ProviderId.openErApi ∈ (currency rt P cache req).calls) ∧
    (∀ tbl, offered P (normBase rt req) (targets rt req) ProviderId.exchangerateHost = some tbl →
      pick (targets rt req) tbl = [] →
      currency rt P cache req
        = { response := Response.error 502 ErrorKind.noUsableRates,
            calls := [ProviderId.exchangerateHost], cache := cache }) ∧
    (∀ tbl, offered P (normBase rt req) (targets rt req) ProviderId.exchangerateHost = none →
      offered P (normBase rt req) (targets rt req) ProviderId.frankfurter = some tbl →
      pick (targets rt req) tbl = [] →
      currency rt P cache req
        = { response := Response.error 502 ErrorKind.noUsableRates,
            calls := [ProviderId.exchangerateHost, ProviderId.frankfurter], cache := cache }) ∧
    (offered P (normBase rt req) (targets rt req) ProviderId.exchangerateHost = none →
      offered P (normBase rt req) (targets rt req) ProviderId.frankfurter = none →
      providerFails P (normBase rt req) (targets rt req) ProviderId.openErApi →
      currency rt P cache req
        = { response := Response.error 502 ErrorKind.badProviderResponse,
            calls := [ProviderId.exchangerateHost, ProviderId.frankfurter,
              ProviderId.openErApi],
            cache := cache }) := by
  have hc := currency_of_valid rt P cache req hv
  rw [hm] at hc
  simp only at hc
  rw [hc]
  refine ⟨?_, ?_, ?_, ?_, ?_⟩
  · intro hA
    rcases tryExchangerateHost_calls rt P cache (normBase rt req) (parseAmount req.amount)
        (targets rt req) (requestKey rt req) req.now with ⟨_, tbl, h2⟩ | ⟨h1, _⟩ | ⟨h1, _⟩
    · rw [hA] at h2; cases h2
    · rw [h1]; decide
    · rw [h1]; decide
  · intro hA hB
    rcases tryExchangerateHost_calls rt P cache (normBase rt req) (parseAmount req.amount)
        (targets rt req) (requestKey rt req) req.now with
      ⟨_, tbl, h2⟩ | ⟨_, _, tbl, h2⟩ | ⟨h1, _⟩
    · rw [hA] at h2; cases h2
    · rw [hB] at h2; cases h2
    · rw [h1]; decide
  · intro tbl hA hp
    exact chain_first_empty _ _ _ _ _ _ _ _ _ hA hp
  · intro tbl hA hB hp
    exact chain_second_empty _ _ _ _ _ _ _ _ _ hA hB hp
  · intro hA hB hC
    exact chain_third_fails _ _ _ _ _ _ _ _ hA hB hC

/-- C2 (amended), at an instance: the default request on a cold cache with all
providers down passes the first provider over and calls the second. -/
theorem c2_failure_handling_per_provider_witness :
    ValidInput natRuntime { amount := none, base := none, symbols := none, now := 0 } ∧
    liveEntry ([] : Cache Nat)
      (requestKey natRuntime { amount := none, base := none, symbols := none, now := 0 }) 0
      = none ∧
    ProviderId.frankfurter ∈
      (currency natRuntime allDown []
        { amount := none, base := none, symbols := none, now := 0 }).calls :=
  ⟨⟨rfl, by decide, by decide⟩, rfl,
    (c2_failure_handling_per_provider natRuntime allDown []
      { amount := none, base := none, symbols := none, now := 0 }
      ⟨rfl, by decide, by decide⟩ rfl).1 rfl⟩

/-- C7: the providers called form a prefix of the chain (first, second,
third); a provider is called only when every earlier one offered no table;
and on a request that passes the input checks and misses the cache, a
provider that is reached and yields a non-empty projected table serves the
request: the calls stop at it, `source` is its name and there is no
`cachedAt`. -/
theorem c7_provider_order {V : Type} (rt : Runtime V) (P : Providers V) (cache : Cache V)
    (req : Request) :
    (currency rt P cache req).calls <+:
      [ProviderId.exchangerateHost, ProviderId.frankfurter, ProviderId.openErApi] ∧
    (∀ p ∈ (currency rt P cache req).calls,
      reached P (normBase rt req) (targets rt req) p) ∧
    (∀ p tbl, ValidInput rt req → liveEntry cache (requestKey rt req) req.now = none →
      reached P (normBase rt req) (targets rt req) p →
      providerSucceeds P (normBase rt req) (targets rt req) p tbl →
      (currency rt P cache req).calls = p.chainUpTo ∧
      (currency rt P cache req).response
        = Response.json (normBase rt req) (parseAmount req.amount)
            (convert rt (parseAmount req.amount) (pick (targets rt req) tbl)) p.name none) := by
  have hcalls : (currency rt P cache req).calls = [] ∨
      (currency rt P cache req).calls
        = (tryExchangerateHost rt P cache (normBase rt req) (parseAmount req.amount)
            (targets rt req) (requestKey rt req) req.now).calls := by
    by_cases hv : ValidInput rt req
    · rw [currency_of_valid rt P cache req hv]
      cases liveEntry cache (requestKey rt req) req.now with
      | none => right; rfl
      | some e => left; rfl
    · obtain ⟨kind, hk⟩ := currency_of_invalid rt P cache req hv
      left; rw [hk]
  refine ⟨?_, ?_, ?_⟩
  · rcases hcalls with h | h
    · rw [h]; exact List.nil_prefix
    · rw [h]
      rcases tryExchangerateHost_calls rt P cache (normBase rt req) (parseAmount req.amount)
          (targets rt req) (requestKey rt req) req.now with ⟨h1, _⟩ | ⟨h1, _⟩ | ⟨h1, _⟩
      · rw [h1]; exact ⟨[ProviderId.frankfurter, ProviderId.openErApi], rfl⟩
      · rw [h1]; exact ⟨[ProviderId.openErApi], rfl⟩
      · rw [h1]
  · intro p hp
    rcases hcalls with h | h
    · rw [h] at hp; cases hp
    · rw [h] at hp
      rcases tryExchangerateHost_calls rt P cache (normBase rt req) (parseAmount req.amount)
          (targets rt req) (requestKey rt req) req.now with
        ⟨h1, _⟩ | ⟨h1, hA, _⟩ | ⟨h1, hA, hB⟩
      · rw [h1] at hp
        cases p
        · trivial
        · simp at hp
        · simp at hp
      · rw [h1] at hp
        cases p
        · trivial
        · exact hA
        · simp at hp
      · cases p
        · trivial
        · exact hA
        · exact ⟨hA, hB⟩
  · intro p tbl hv hm hr hs
    have hc := currency_of_valid rt P cache req hv
    rw [hm] at hc
    simp only at hc
    rw [hc]
    obtain ⟨ho, hp⟩ := hs
    cases p
    · rw [chain_first_ok _ _ _ _ _ _ _ _ _ ho hp]
      exact ⟨rfl, rfl⟩
    · rw [chain_second_ok _ _ _ _ _ _ _ _ _ hr ho hp]
      exact ⟨rfl, rfl⟩
    · rw [chain_third_ok _ _ _ _ _ _ _ _ _ hr.1 hr.2 ho hp]
      exact ⟨rfl, rfl⟩

/-- C7, at an instance: the default request on a cold cache, served by the
first provider, calls that provider only and reports it as the source. -/
theorem c7_provider_order_witness :
    (currency natRuntime firstUp []
        { amount := none, base := none, symbols := none, now := 0 }).calls
      = [ProviderId.exchangerateHost] ∧
    (currency natRuntime firstUp []
        { amount := none, base := none, symbols := none, now := 0 }).response
      = Response.json "INR".toList JsNum.one [("USD".toList, 2), ("EUR".toList, 3)]
          "exchangerate.host".toList none :=
  (c7_provider_order natRuntime firstUp []
    { amount := none, base := none, symbols := none, now := 0 }).2.2
    ProviderId.exchangerateHost [("USD".toList, some 2), ("EUR".toList, some 3)]
    ⟨rfl, by decide, by decide⟩ rfl trivial ⟨rfl, by decide⟩

/-- C8: with an amount that passes, a base that is not allow-listed after
upper-casing is answered 400 "unsupported base" whatever the symbols are, no
provider is called and the cache is unchanged; and an absent base is read as
`INR`, which is allow-listed. -/
theorem c8_unsupported_base {V : Type} (rt : Runtime V) (P : Providers V) (cache : Cache V)
    (req : Request)
    (ha : ((parseAmount req.amount).isNaN || (parseAmount req.amount).ltZero) = false)
    (hb : toUpperCase rt.upper (orDefault req.base "INR".toList) ∉ ALLOW) :
    currency rt P cache req
      = { response := Response.error 400 ErrorKind.unsupportedBase, calls := [],
          cache := cache } ∧
    normBase rt { req with base := none } = "INR".toList ∧
    normBase rt { req with base := none } ∈ ALLOW :=
  ⟨currency_of_bad_base rt P cache req ha hb, rfl, (by decide : "INR".toList ∈ ALLOW)⟩

/-- C8, at an instance: `base=ZZZ` with valid symbols on a cache that holds an
entry and with a provider that would answer. -/
theorem c8_unsupported_base_witness :
    currency natRuntime firstUp [("INR|USD,EUR".toList, { ts := 0, rates := [("USD".toList, 2)] })]
        { amount := some "5".toList, base := some "zzz".toList, symbols := some "USD".toList,
          now := 7 }
      = { response := Response.error 400 ErrorKind.unsupportedBase, calls := [],
          cache := [("INR|USD,EUR".toList, { ts := 0, rates := [("USD".toList, 2)] })] } :=
  (c8_unsupported_base natRuntime firstUp
    [("INR|USD,EUR".toList, { ts := 0, rates := [("USD".toList, 2)] })]
    { amount := some "5".toList, base := some "zzz".toList, symbols := some "USD".toList,
      now := 7 }
    rfl (by decide)).1

/-- C9: when a request that passes the input checks misses the cache (no
entry, or a stale one) and every provider fails for it, the answer has
status 502 and the cache afterwards is the cache before. -/
theorem c9_all_fail_leaves_cache {V : Type} (rt : Runtime V) (P : Providers V)
    (cache : Cache V) (req : Request) (hv : ValidInput rt req)
    (hm : liveEntry cache (requestKey rt req) req.now = none)
    (hA : providerFails P (normBase rt req) (targets rt req) ProviderId.exchangerateHost)
    (hB : providerFails P (normBase rt req) (targets rt req) ProviderId.frankfurter)
    (hC : providerFails P (normBase rt req) (targets rt req) ProviderId.openErApi) :
    (∃ kind, (currency rt P cache req).response = Response.error 502 kind) ∧
    (currency rt P cache req).cache = cache := by
  have hc := currency_of_valid rt P cache req hv
  rw [hm] at hc
  simp only at hc
  rw [hc]
  rcases chain_cases rt P cache (normBase rt req) (parseAmount req.amount) (targets rt req)
      (requestKey rt req) req.now with ⟨p, tbl, _, hs, _⟩ | ⟨p, kind, _, _, he⟩
  · exfalso
    have hf : providerFails P (normBase rt req) (targets rt req) p := by
      cases p
      · exact hA
      · exact hB
      · exact hC
    unfold providerFails at hf
    rw [hs.1] at hf
    exact hs.2 hf
  · rw [he]
    exact ⟨⟨kind, rfl⟩, rfl⟩

/-- C9, at an instance: a stale entry under the key of the request and all
providers down; the entry is still there afterwards. -/
theorem c9_all_fail_leaves_cache_witness :
    (∃ kind, (currency natRuntime allDown
        [("INR|USD,EUR".toList, { ts := 0, rates := [("USD".toList, 2)] })]
        { amount := none, base := none, symbols := none, now := 300000 }).response
      = Response.error 502 kind) ∧
    (currency natRuntime allDown
        [("INR|USD,EUR".toList, { ts := 0, rates := [("USD".toList, 2)] })]
        { amount := none, base := none, symbols := none, now := 300000 }).cache
      = [("INR|USD,EUR".toList, { ts := 0, rates := [("USD".toList, 2)] })] :=
  c9_all_fail_leaves_cache natRuntime allDown
    [("INR|USD,EUR".toList, { ts := 0, rates := [("USD".toList, 2)] })]
    { amount := none, base := none, symbols := none, now := 300000 }
    ⟨rfl, by decide, by decide⟩ rfl trivial trivial trivial

/-! ## Claims about conversions and the cache -/

/-- C3: in every success body, served from the cache or by a provider, the
conversions are computed from the rate table actually used (the rates of the
live cache entry on a hit, the projection of the provider's table on a
miss): under each key stands the product of the amount with the rate under
that key, rounded to six decimals, and the conversions have exactly the keys
of that rate table. -/
theorem c3_conversions_from_table_used {V : Type} (rt : Runtime V) (P : Providers V)
    (cache : Cache V) (req : Request) (base : Str) (amt : JsNum) (conv : JsObj V) (src : Str)
    (ca : Option Int)
    (h : (currency rt P cache req).response = Response.json base amt conv src ca) :
    ∃ rates : JsObj V,
      ((src = "cache".toList ∧
          ∃ entry, liveEntry cache (requestKey rt req) req.now = some entry ∧
            rates = entry.rates) ∨
       (liveEntry cache (requestKey rt req) req.now = none ∧
          ∃ p tbl, src = p.name ∧
            offered P (normBase rt req) (targets rt req) p = some tbl ∧
            rates = pick (targets rt req) tbl)) ∧
      amt = parseAmount req.amount ∧
      (∀ k, JsObj.get conv k
        = (JsObj.get rates k).map (fun r => rt.toFixed6 (rt.times amt r))) ∧
      (∀ k, k ∈ JsObj.keys conv ↔ k ∈ JsObj.keys rates) := by
  obtain ⟨_, _, ha, hcase⟩ := currency_json_cases rt P cache req base amt conv src ca h
  rcases hcase with ⟨entry, hl, hconv, hsrc, _, _, _⟩ | ⟨hl, p, tbl, _, hs, hconv, hsrc, _, _⟩
  · refine ⟨entry.rates, Or.inl ⟨hsrc, entry, hl, rfl⟩, ha, ?_, ?_⟩
    · intro k; rw [hconv]; exact get_convert rt amt entry.rates k
    · intro k; rw [hconv]; exact mem_keys_convert rt amt entry.rates k
  · refine ⟨pick (targets rt req) tbl, Or.inr ⟨hl, p, tbl, hsrc, hs.1, rfl⟩, ha, ?_, ?_⟩
    · intro k; rw [hconv]; exact get_convert rt amt _ k
    · intro k; rw [hconv]; exact mem_keys_convert rt amt _ k

/-- C3, at an instance: `amount=100` served by the first provider with the
rates `USD = 2` and `EUR = 3`. -/
theorem c3_conversions_from_table_used_witness :
    ∃ rates : JsObj Nat,
      (("exchangerate.host".toList = "cache".toList ∧
          ∃ entry, liveEntry ([] : Cache Nat)
              (requestKey natRuntime
                { amount := some "100".toList, base := none, symbols := none, now := 0 }) 0
              = some entry ∧
            rates = entry.rates) ∨
       (liveEntry ([] : Cache Nat)
            (requestKey natRuntime
              { amount := some "100".toList, base := none, symbols := none, now := 0 }) 0
            = none ∧
          ∃ p tbl, "exchangerate.host".toList = ProviderId.name p ∧
            offered firstUp
              (normBase natRuntime
                { amount := some "100".toList, base := none, symbols := none, now := 0 })
              (targets natRuntime
                { amount := some "100".toList, base := none, symbols := none, now := 0 }) p
              = some tbl ∧
            rates = pick
              (targets natRuntime
                { amount := some "100".toList, base := none, symbols := none, now := 0 }) tbl)) ∧
      JsNum.dec false 100 0
        = parseAmount
            ({ amount := some "100".toList, base := none, symbols := none, now := 0 } :
              Request).amount ∧
      (∀ k, JsObj.get [("USD".toList, 200), ("EUR".toList, 300)] k
        = (JsObj.get rates k).map
            (fun r => natRuntime.toFixed6 (natRuntime.times (JsNum.dec false 100 0) r))) ∧
      (∀ k, k ∈ JsObj.keys [("USD".toList, 200), ("EUR".toList, 300)] ↔
        k ∈ JsObj.keys rates) :=
  c3_conversions_from_table_used natRuntime firstUp []
    { amount := some "100".toList, base := none, symbols := none, now := 0 }
    "INR".toList (JsNum.dec false 100 0) [("USD".toList, 200), ("EUR".toList, 300)]
    "exchangerate.host".toList none rfl

theorem targets_ne_nil_of_pick {V : Type} (syms : List Str) (tbl : JsObj (Option V))
    (h : pick syms tbl ≠ []) : syms ≠ [] := by
  intro hc
  subst hc
  exact h rfl

theorem allowedSymbols_ne_nil_of_targets {V : Type} (rt : Runtime V) (req : Request)
    (h : targets rt req ≠ []) : allowedSymbols rt req ≠ [] := by
  intro hc
  apply h
  unfold targets
  rw [hc]
  rfl

theorem name_ne_cache (p : ProviderId) : p.name ≠ "cache".toList := by
  cases p <;> decide

/-- C4: after a request was served by a provider, a next request with the
same base and the same target list, and with an amount that passes, is
answered from the cache when the time elapsed is below the time to live:
`source` is `cache`, `cachedAt` is the time of the first request, no provider
is called and, for the same amount, the conversions are those of the first
response. When the time elapsed has reached the time to live, the entry is
not used: the provider chain runs again, starting with the first provider. -/
theorem c4_second_request_within_ttl {V : Type} (rt : Runtime V) (P1 P2 : Providers V)
    (cache : Cache V) (r1 r2 : Request) (base : Str) (amt : JsNum) (conv : JsObj V) (src : Str)
    (h1 : (currency rt P1 cache r1).response = Response.json base amt conv src none)
    (hb : normBase rt r2 = normBase rt r1) (ht : targets rt r2 = targets rt r1)
    (ha : ((parseAmount r2.amount).isNaN || (parseAmount r2.amount).ltZero) = false) :
    (r2.now - r1.now < CACHE_TTL_MS →
      ∃ conv2,
        currency rt P2 (currency rt P1 cache r1).cache r2
          = { response := Response.json base (parseAmount r2.amount) conv2 "cache".toList
                (some r1.now),
              calls := [], cache := (currency rt P1 cache r1).cache } ∧
        (parseAmount r2.amount = amt → conv2 = conv)) ∧
    (CACHE_TTL_MS ≤ r2.now - r1.now →
      (currency rt P2 (currency rt P1 cache r1).cache r2).calls.head?
        = some ProviderId.exchangerateHost ∧
      ∀ b a c s t, (currency rt P2 (currency rt P1 cache r1).cache r2).response
        = Response.json b a c s t → s ≠ "cache".toList ∧ t = none) := by
  obtain ⟨hv1, hbase, hamt, hcase⟩ := currency_json_cases rt P1 cache r1 base amt conv src none h1
  rcases hcase with ⟨entry, _, _, _, hca, _, _⟩ | ⟨_, p, tbl, _, hs, hconv, _, _, hout⟩
  · cases hca
  · have hkey : requestKey rt r2 = requestKey rt r1 := by
      unfold requestKey; rw [hb, ht]
    have hv2 : ValidInput rt r2 := by
      refine ⟨ha, ?_, ?_⟩
      · rw [hb]; exact hv1.2.1
      · apply allowedSymbols_ne_nil_of_targets
        rw [ht]
        exact targets_ne_nil_of_pick _ _ hs.2
    have hcache : (currency rt P1 cache r1).cache
        = JsObj.set cache (requestKey rt r1)
            { ts := r1.now, rates := pick (targets rt r1) tbl } := by
      rw [hout]; rfl
    have hget : JsObj.get (currency rt P1 cache r1).cache (requestKey rt r2)
        = some { ts := r1.now, rates := pick (targets rt r1) tbl } := by
      rw [hcache, hkey]; exact JsObj.get_set_self _ _ _
    have hc2 := currency_of_valid rt P2 (currency rt P1 cache r1).cache r2 hv2
    constructor
    · intro hlt
      have hl : liveEntry (currency rt P1 cache r1).cache (requestKey rt r2) r2.now
          = some { ts := r1.now, rates := pick (targets rt r1) tbl } := by
        unfold liveEntry
        rw [hget]
        simp only [hlt, if_true]
      rw [hl] at hc2
      simp only at hc2
      refine ⟨convert rt (parseAmount r2.amount) (pick (targets rt r1) tbl), ?_, ?_⟩
      · rw [hc2, hb, hbase]
      · intro he
        rw [he, hconv]
    · intro hge
      have hl : liveEntry (currency rt P1 cache r1).cache (requestKey rt r2) r2.now = none := by
        unfold liveEntry
        rw [hget]
        have hn : ¬ r2.now - r1.now < CACHE_TTL_MS := not_lt.mpr hge
        simp only [hn, if_false]
      rw [hl] at hc2
      simp only at hc2
      constructor
      · rw [hc2]
        rcases tryExchangerateHost_calls rt P2 (currency rt P1 cache r1).cache (normBase rt r2)
            (parseAmount r2.amount) (targets rt r2) (requestKey rt r2) r2.now with
          ⟨h, _⟩ | ⟨h, _⟩ | ⟨h, _⟩ <;> rw [h] <;> rfl
      · intro b a c s t hj
        obtain ⟨_, _, _, hcase2⟩ :=
          currency_json_cases rt P2 (currency rt P1 cache r1).cache r2 b a c s t hj
        rcases hcase2 with ⟨e, hle, _⟩ | ⟨_, q, _, _, _, _, hsrc, hnone, _⟩
        · rw [hl] at hle; cases hle
        · exact ⟨hsrc ▸ name_ne_cache q, hnone⟩

/-- C4, at an instance: the default request served by the first provider at
time 0 and asked again at time 299999 with all providers down. -/
theorem c4_second_request_within_ttl_witness :
    ∃ conv2,
      currency natRuntime allDown
          (currency natRuntime firstUp []
            { amount := none, base := none, symbols := none, now := 0 }).cache
          { amount := none, base := some "inr".toList, symbols := some "usd, eur".toList,
            now := 299999 }
        = { response := Response.json "INR".toList
              (parseAmount none) conv2 "cache".toList (some 0),
            calls := [],
            cache := (currency natRuntime firstUp []
              { amount := none, base := none, symbols := none, now := 0 }).cache } ∧
      (parseAmount none = JsNum.one →
        conv2 = [("USD".toList, 2), ("EUR".toList, 3)]) :=
  (c4_second_request_within_ttl natRuntime firstUp allDown []
    { amount := none, base := none, symbols := none, now := 0 }
    { amount := none, base := some "inr".toList, symbols := some "usd, eur".toList,
      now := 299999 }
    "INR".toList JsNum.one [("USD".toList, 2), ("EUR".toList, 3)] "exchangerate.host".toList
    rfl rfl rfl rfl).1 (by decide)

/-! ## The cache invariant -/

/-- Every allow-listed code has three characters. -/
theorem length_of_mem_ALLOW (b : Str) (h : b ∈ ALLOW) : b.length = 3 := by
  revert b
  decide

/-- The cache key determines the base. -/
theorem cacheKey_base_inj (b1 b2 : Str) (l1 l2 : List Str) (h1 : b1 ∈ ALLOW) (h2 : b2 ∈ ALLOW)
    (h : cacheKey b1 l1 = cacheKey b2 l2) : b1 = b2 := by
  unfold cacheKey at h
  have hl : b1.length = b2.length := by
    rw [length_of_mem_ALLOW b1 h1, length_of_mem_ALLOW b2 h2]
  exact (List.append_inj h hl).1

theorem mem_targets {V : Type} (rt : Runtime V) (req : Request) (t : Str)
    (h : t ∈ targets rt req) : t ∈ ALLOW ∧ t ≠ normBase rt req := by
  unfold targets allowedSymbols at h
  simp only [List.mem_filter, decide_eq_true_eq] at h
  exact ⟨h.1.2, h.2⟩

/-- The cache after a request: the cache before, or the cache before with
a non-empty projection stored under the key of the request, which passed the
input checks. -/
theorem currency_cache_cases {V : Type} (rt : Runtime V) (P : Providers V) (cache : Cache V)
    (req : Request) :
    (currency rt P cache req).cache = cache ∨
    (ValidInput rt req ∧ ∃ tbl, pick (targets rt req) tbl ≠ [] ∧
      (currency rt P cache req).cache
        = JsObj.set cache (requestKey rt req)
            { ts := req.now, rates := pick (targets rt req) tbl }) := by
  by_cases hv : ValidInput rt req
  · have hc := currency_of_valid rt P cache req hv
    cases hl : liveEntry cache (requestKey rt req) req.now with
    | some entry =>
      rw [hl] at hc
      left; rw [hc]
    | none =>
      rw [hl] at hc
      simp only at hc
      rcases chain_cases rt P cache (normBase rt req) (parseAmount req.amount) (targets rt req)
          (requestKey rt req) req.now with ⟨p, tbl, _, hs, he⟩ | ⟨p, kind, _, _, he⟩
      · right
        refine ⟨hv, tbl, hs.2, ?_⟩
        rw [hc, he]; rfl
      · left
        rw [hc, he]; rfl
  · obtain ⟨kind, hk⟩ := currency_of_invalid rt P cache req hv
    left; rw [hk]

/-- Serving a request preserves the invariant of the cache. -/
theorem cacheInv_step {V : Type} (rt : Runtime V) (P : Providers V) (cache : Cache V)
    (req : Request) (h : CacheInv cache) : CacheInv (currency rt P cache req).cache := by
  rcases currency_cache_cases rt P cache req with hc | ⟨hv, tbl, hp, hc⟩
  · rw [hc]; exact h
  · rw [hc]
    intro k entry hg
    by_cases hk : requestKey rt req = k
    · subst hk
      rw [JsObj.get_set_self] at hg
      cases hg
      exact ⟨normBase rt req, targets rt req, rfl, hv.2.1, fun t ht => mem_targets rt req t ht,
        fun x hx => mem_keys_pick _ _ x hx, hp⟩
    · rw [JsObj.get_set_ne _ _ _ _ hk] at hg
      exact h k entry hg

/-- Every reachable cache satisfies the invariant. -/
theorem cacheInv_of_reachable {V : Type} (rt : Runtime V) (cache : Cache V)
    (h : Reachable rt cache) : CacheInv cache := by
  induction h with
  | init => intro k entry hg; cases hg
  | step P cache req _ ih => exact cacheInv_step rt P cache req ih

theorem get_of_liveEntry {V : Type} (cache : Cache V) (key : Str) (now : Int)
    (entry : CacheEntry V) (h : liveEntry cache key now = some entry) :
    JsObj.get cache key = some entry := by
  unfold liveEntry at h
  cases hg : JsObj.get cache key with
  | none => rw [hg] at h; cases h
  | some e =>
    rw [hg] at h
    by_cases ht : now - e.ts < CACHE_TTL_MS
    · simp only [ht, if_true] at h
      exact h
    · simp only [ht, if_false] at h
      cases h

/-- In a reachable cache, the keys of the conversions of a success body are
targets of the request. -/
theorem keys_conv_subset_targets {V : Type} (rt : Runtime V) (P : Providers V)
    (cache : Cache V) (req : Request) (hr : CacheInv cache) (base : Str) (amt : JsNum)
    (conv : JsObj V) (src : Str) (ca : Option Int)
    (h : (currency rt P cache req).response = Response.json base amt conv src ca) (k : Str)
    (hk : k ∈ JsObj.keys conv) : k ∈ ALLOW ∧ k ≠ normBase rt req := by
  obtain ⟨hv, _, _, hcase⟩ := currency_json_cases rt P cache req base amt conv src ca h
  rcases hcase with ⟨entry, hl, hconv, _⟩ | ⟨_, p, tbl, _, _, hconv, _⟩
  · rw [hconv, mem_keys_convert] at hk
    obtain ⟨b, ts, hkey, hb, hts, hsub, _⟩ := hr _ entry (get_of_liveEntry _ _ _ _ hl)
    have hbb : normBase rt req = b := cacheKey_base_inj _ _ _ _ hv.2.1 hb hkey
    have := hts k (hsub k hk)
    rw [hbb]
    exact this
  · rw [hconv, mem_keys_convert] at hk
    exact mem_targets rt req k (mem_keys_pick _ _ k hk)

/-- C5: in every cache state reachable from the empty cache, whatever the
providers answer, the base of a request is not a key of the conversions
returned for it, be they served from the cache or by a provider. -/
theorem c5_base_never_in_conversions {V : Type} (rt : Runtime V) (P : Providers V)
    (cache : Cache V) (req : Request) (hr : Reachable rt cache) (base : Str) (amt : JsNum)
    (conv : JsObj V) (src : Str) (ca : Option Int)
    (h : (currency rt P cache req).response = Response.json base amt conv src ca) :
    base = normBase rt req ∧ base ∉ JsObj.keys conv := by
  have hb : base = normBase rt req :=
    (currency_json_cases rt P cache req base amt conv src ca h).2.1
  refine ⟨hb, fun hk => ?_⟩
  have := keys_conv_subset_targets rt P cache req (cacheInv_of_reachable rt cache hr) base amt
    conv src ca h base hk
  exact this.2 hb

/-- C5, at an instance: `base=USD&symbols=USD,EUR` on the cache left by an earlier
request, served by a provider that also returns a rate for `USD`. -/
theorem c5_base_never_in_conversions_witness :
    "USD".toList = normBase natRuntime
        { amount := none, base := some "USD".toList, symbols := some "USD,EUR".toList, now := 9 } ∧
    "USD".toList ∉ JsObj.keys [("EUR".toList, 3)] :=
  c5_base_never_in_conversions natRuntime firstUp
    (currency natRuntime firstUp [] { amount := none, base := none, symbols := none, now := 0 }).cache
    { amount := none, base := some "USD".toList, symbols := some "USD,EUR".toList, now := 9 }
    (Reachable.step firstUp [] { amount := none, base := none, symbols := none, now := 0 }
      Reachable.init)
    "USD".toList JsNum.one [("EUR".toList, 3)] "exchangerate.host".toList none rfl

/-- C6 (counterexample): for `amount=100&base=ZZZ&symbols=XYZ` every supplied
code is outside the allow-list, and the answer is 400 "unsupported base", not
400 "no valid targets": the base is checked first. -/
theorem c6_unsupported_base_comes_first :
    (∀ s ∈ splitSymbols natRuntime
        { amount := some "100".toList, base := some "ZZZ".toList,
          symbols := some "XYZ".toList, now := 0 }, s ∉ ALLOW) ∧
    currency natRuntime allDown []
        { amount := some "100".toList, base := some "ZZZ".toList,
          symbols := some "XYZ".toList, now := 0 }
      = { response := Response.error 400 ErrorKind.unsupportedBase, calls := [], cache := [] } :=
  ⟨by decide, rfl⟩

/-- C6 (amended): every target of a request is allow-listed; in every cache
state reachable from the empty cache, whatever the providers answer, every key
of the conversions of a success body is allow-listed; and when the amount
passes and the base is allow-listed, a request none of whose symbols is
allow-listed is answered 400 "no valid targets", no provider is called and
the cache is unchanged. -/
theorem c6_allow_list_filter {V : Type} (rt : Runtime V) (P : Providers V) (cache : Cache V)
    (req : Request) :
    (∀ s ∈ targets rt req, s ∈ ALLOW) ∧
    (Reachable rt cache → ∀ base amt conv src ca,
      (currency rt P cache req).response = Response.json base amt conv src ca →
      ∀ k ∈ JsObj.keys conv, k ∈ ALLOW) ∧
    (((parseAmount req.amount).isNaN || (parseAmount req.amount).ltZero) = false →
      normBase rt req ∈ ALLOW →
      (∀ s ∈ splitSymbols rt req, s ∉ ALLOW) →
      currency rt P cache req
        = { response := Response.error 400 ErrorKind.noValidTargets, calls := [],
            cache := cache }) := by
  refine ⟨fun s hs => (mem_targets rt req s hs).1, ?_, ?_⟩
  · intro hr base amt conv src ca h k hk
    exact (keys_conv_subset_targets rt P cache req (cacheInv_of_reachable rt cache hr) base amt
      conv src ca h k hk).1
  · intro ha hb hs
    apply currency_of_no_symbols rt P cache req ha hb
    unfold allowedSymbols
    rw [List.filter_eq_nil_iff]
    intro s hmem
    simp only [decide_eq_true_eq]
    exact hs s hmem

/-- C6 (amended), at the instance of the specification:
`amount=100&base=INR&symbols=XYZ`, with a provider that would answer. -/
theorem c6_allow_list_filter_witness :
    currency natRuntime firstUp []
        { amount := some "100".toList, base := some "INR".toList,
          symbols := some "XYZ".toList, now := 0 }
      = { response := Response.error 400 ErrorKind.noValidTargets, calls := [], cache := [] } :=
  (c6_allow_list_filter natRuntime firstUp []
    { amount := some "100".toList, base := some "INR".toList,
      symbols := some "XYZ".toList, now := 0 }).2.2 rfl (by decide) (by decide)

/-! ## The amount -/

theorem digit_facts (c : Char) (h : c.isDigit = true) :
    isJsWhiteSpace c = false ∧ c ≠ '-' ∧ c ≠ '+' ∧ c ≠ 'I' ∧ c ≠ '.' := by
  have h1 : 48 ≤ c.toNat ∧ c.toNat ≤ 57 := by
    simp only [Char.isDigit, Bool.and_eq_true, decide_eq_true_eq] at h
    exact ⟨h.1, h.2⟩
  refine ⟨?_, ?_, ?_, ?_, ?_⟩
  · unfold isJsWhiteSpace
    simp only [Bool.or_eq_false_iff, decide_eq_false_iff_not, Bool.and_eq_false_imp,
      decide_eq_true_eq]
    omega
  all_goals
    intro hc
    subst hc
    revert h1
    decide

theorem not_prefix_Infinity (c : Char) (rest : Str) (h : c ≠ 'I') :
    ("Infinity".toList.isPrefixOf (c :: rest)) = false := by
  show (('I' :: "nfinity".toList).isPrefixOf (c :: rest)) = false
  simp [List.isPrefixOf, h.symm]

/-- A text that starts with a digit is read as a literal without sign. -/
theorem parseUnsigned_of_digit (neg : Bool) (c : Char) (rest : Str) (h : c.isDigit = true) :
    ∃ m e, parseUnsigned neg (c :: rest) = JsNum.dec neg m e := by
  unfold parseUnsigned
  rw [not_prefix_Infinity c rest (digit_facts c h).2.2.2.1]
  simp only [Bool.false_eq_true, if_false]
  have hip : (c :: rest).takeWhile Char.isDigit ≠ [] := by
    simp [List.takeWhile_cons, h]
  split
  · simp only [hip, false_and, if_false]
    exact ⟨_, _, rfl⟩
  · simp only [hip, if_false]
    exact ⟨_, _, rfl⟩

/-- The function `parseFloat` on a text that starts with a digit: a literal
that is not negative, whatever follows the digits. -/
theorem parseFloat_of_digit (c : Char) (rest : Str) (h : c.isDigit = true) :
    ∃ m e, parseFloat (c :: rest) = JsNum.dec false m e := by
  obtain ⟨hw, hm, hp, _, _⟩ := digit_facts c h
  unfold parseFloat
  have hd : (c :: rest).dropWhile isJsWhiteSpace = c :: rest := by
    simp [List.dropWhile_cons, hw]
  rw [hd]
  split
  · rename_i heq; cases heq; exact absurd rfl hm
  · rename_i heq; cases heq; exact absurd rfl hp
  · exact parseUnsigned_of_digit false c rest h

/-- The function `parseFloat` on a non-empty text of digits: its value. -/
theorem parseFloat_of_digits (ds : Str) (hne : ds ≠ []) (hd : ∀ c ∈ ds, c.isDigit = true) :
    parseFloat ds = JsNum.dec false (digitsValue ds) 0 := by
  cases ds with
  | nil => exact absurd rfl hne
  | cons c rest =>
    have hc : c.isDigit = true := hd c (List.mem_cons_self _ _)
    obtain ⟨hw, hm, hp, hI, _⟩ := digit_facts c hc
    have htake : (c :: rest).takeWhile Char.isDigit = c :: rest :=
      List.takeWhile_eq_self_iff.mpr hd
    have hdrop : (c :: rest).dropWhile Char.isDigit = [] :=
      List.dropWhile_eq_nil_iff.mpr hd
    unfold parseFloat
    have hdw : (c :: rest).dropWhile isJsWhiteSpace = c :: rest := by
      simp [List.dropWhile_cons, hw]
    rw [hdw]
    split
    · rename_i heq; cases heq; exact absurd rfl hm
    · rename_i heq; cases heq; exact absurd rfl hp
    · unfold parseUnsigned
      rw [not_prefix_Infinity c rest hI, htake, hdrop]
      simp [parseExponent]

/-- The function `parseFloat` on a text whose first character is neither white
space, nor a sign, a digit, a dot or the letter `I`: not a number. -/
theorem parseFloat_of_other (c : Char) (rest : Str) (hw : isJsWhiteSpace c = false)
    (hd : c.isDigit = false) (hm : c ≠ '-') (hp : c ≠ '+') (hdot : c ≠ '.') (hI : c ≠ 'I') :
    parseFloat (c :: rest) = JsNum.nan := by
  unfold parseFloat
  have hdw : (c :: rest).dropWhile isJsWhiteSpace = c :: rest := by
    simp [List.dropWhile_cons, hw]
  rw [hdw]
  split
  · rename_i heq; cases heq; exact absurd rfl hm
  · rename_i heq; cases heq; exact absurd rfl hp
  · unfold parseUnsigned
    rw [not_prefix_Infinity c rest hI]
    have htake : (c :: rest).takeWhile Char.isDigit = [] := by
      simp [List.takeWhile_cons, hd]
    have hdrop : (c :: rest).dropWhile Char.isDigit = c :: rest := by
      simp [List.dropWhile_cons, hd]
    rw [htake, hdrop]
    simp only [Bool.false_eq_true, if_false]
    split
    · rename_i heq; cases heq; exact absurd rfl hdot
    · simp

/-- An amount that passes is never answered with "invalid amount". -/
theorem currency_not_invalidAmount {V : Type} (rt : Runtime V) (P : Providers V)
    (cache : Cache V) (req : Request)
    (ha : ((parseAmount req.amount).isNaN || (parseAmount req.amount).ltZero) = false) :
    (currency rt P cache req).response ≠ Response.error 400 ErrorKind.invalidAmount := by
  by_cases hb : normBase rt req ∈ ALLOW
  · by_cases hs : allowedSymbols rt req = []
    · rw [currency_of_no_symbols rt P cache req ha hb hs]
      intro hc; cases hc
    · have hc := currency_of_valid rt P cache req ⟨ha, hb, hs⟩
      cases hl : liveEntry cache (requestKey rt req) req.now with
      | some entry =>
        rw [hl] at hc
        rw [hc]
        intro hx; cases hx
      | none =>
        rw [hl] at hc
        simp only at hc
        rw [hc]
        rcases chain_cases rt P cache (normBase rt req) (parseAmount req.amount) (targets rt req)
            (requestKey rt req) req.now with ⟨p, tbl, _, _, he⟩ | ⟨p, kind, _, _, he⟩
        · rw [he]; intro hx; cases hx
        · rw [he]; intro hx; cases hx
  · rw [currency_of_bad_base rt P cache req ha hb]
    intro hc; cases hc

/-- C10 (counterexample): the text `12abc` is not a number, yet `parseFloat`
reads its numeric prefix and the request is served with the amount 12. -/
theorem c10_numeric_prefix_is_accepted :
    parseFloat "12abc".toList = JsNum.dec false 12 0 ∧
    (currency natRuntime firstUp []
        { amount := some "12abc".toList, base := none, symbols := none, now := 0 }).response
      = Response.json "INR".toList (JsNum.dec false 12 0)
          [("USD".toList, 24), ("EUR".toList, 36)] "exchangerate.host".toList none :=
  ⟨by decide, rfl⟩

/-- C10 (amended): an absent amount is 1; the handler answers 400 "invalid
amount" exactly when `parseFloat` of the supplied text is not a number or is
negative, and then no provider is called and the cache is unchanged. A text
that starts with a digit is accepted whatever follows its numeric prefix, a
text of digits only is read at its value (so every non-negative integer, 0
included, is accepted), and a text whose first character is neither white
space, a sign, a digit, a dot nor the letter `I` is rejected. -/
theorem c10_amount_validation {V : Type} (rt : Runtime V) (P : Providers V) (cache : Cache V)
    (req : Request) :
    (req.amount = none → parseAmount req.amount = JsNum.one) ∧
    ((currency rt P cache req).response = Response.error 400 ErrorKind.invalidAmount ↔
      ((parseAmount req.amount).isNaN || (parseAmount req.amount).ltZero) = true) ∧
    (((parseAmount req.amount).isNaN || (parseAmount req.amount).ltZero) = true →
      (currency rt P cache req).calls = [] ∧ (currency rt P cache req).cache = cache) ∧
    (∀ c rest, c.isDigit = true → req.amount = some (c :: rest) →
      (currency rt P cache req).response ≠ Response.error 400 ErrorKind.invalidAmount) ∧
    (∀ ds, ds ≠ [] → (∀ c ∈ ds, c.isDigit = true) → req.amount = some ds →
      parseAmount req.amount = JsNum.dec false (digitsValue ds) 0) ∧
    (∀ c rest, isJsWhiteSpace c = false → c.isDigit = false → c ≠ '-' → c ≠ '+' → c ≠ '.' →
      c ≠ 'I' → req.amount = some (c :: rest) →
      (currency rt P cache req).response = Response.error 400 ErrorKind.invalidAmount) := by
  refine ⟨?_, ?_, ?_, ?_, ?_, ?_⟩
  · intro h; rw [h]; rfl
  · constructor
    · intro h
      cases hb : ((parseAmount req.amount).isNaN || (parseAmount req.amount).ltZero) with
      | true => rfl
      | false => exact absurd h (currency_not_invalidAmount rt P cache req hb)
    · intro h
      rw [currency_of_bad_amount rt P cache req h]
  · intro h
    rw [currency_of_bad_amount rt P cache req h]
    exact ⟨rfl, rfl⟩
  · intro c rest hc hreq
    apply currency_not_invalidAmount
    obtain ⟨m, e, hp⟩ := parseFloat_of_digit c rest hc
    rw [hreq]
    have : parseAmount (some (c :: rest)) = JsNum.dec false m e := by
      simp only [parseAmount]
      rw [if_neg (List.cons_ne_nil c rest)]
      exact hp
    rw [this]
    rfl
  · intro ds hne hd hreq
    rw [hreq]
    simp only [parseAmount]
    rw [if_neg hne]
    exact parseFloat_of_digits ds hne hd
  · intro c rest hw hd hm hp hdot hI hreq
    have : parseAmount req.amount = JsNum.nan := by
      rw [hreq]
      simp only [parseAmount]
      rw [if_neg (List.cons_ne_nil c rest)]
      exact parseFloat_of_other c rest hw hd hm hp hdot hI
    have hbad : ((parseAmount req.amount).isNaN || (parseAmount req.amount).ltZero) = true := by
      rw [this]; rfl
    rw [currency_of_bad_amount rt P cache req hbad]

set_option exponentiation.threshold 2000 in
/-- C10 (amended), at instances: `amount=-5` is rejected and `amount=0` is not. -/
theorem c10_amount_validation_witness :
    (currency natRuntime firstUp []
        { amount := some "-5".toList, base := none, symbols := none, now := 0 }).response
      = Response.error 400 ErrorKind.invalidAmount ∧
    (currency natRuntime firstUp []
        { amount := some "0".toList, base := none, symbols := none, now := 0 }).response
      ≠ Response.error 400 ErrorKind.invalidAmount :=
  ⟨(c10_amount_validation natRuntime firstUp []
      { amount := some "-5".toList, base := none, symbols := none, now := 0 }).2.1.mpr rfl,
    (c10_amount_validation natRuntime firstUp []
      { amount := some "0".toList, base := none, symbols := none, now := 0 }).2.2.2.1
      '0' [] rfl rfl⟩

/-! ## The cache key -/

/-- The comma-joined text of a non-empty list of allow-listed codes has at
least three characters. -/
theorem length_joinComma_ge (x : Str) (l : List Str) (hx : x ∈ ALLOW) :
    3 ≤ (joinComma (x :: l)).length := by
  have h3 := length_of_mem_ALLOW x hx
  cases l with
  | nil => simp [joinComma, h3]
  | cons y rest =>
    simp only [joinComma, List.length_append, List.length_cons]
    omega

/-- Joining with commas is injective on lists of allow-listed codes. -/
theorem joinComma_inj (l1 l2 : List Str) (h1 : ∀ t ∈ l1, t ∈ ALLOW) (h2 : ∀ t ∈ l2, t ∈ ALLOW)
    (h : joinComma l1 = joinComma l2) : l1 = l2 := by
  induction l1 generalizing l2 with
  | nil =>
    cases l2 with
    | nil => rfl
    | cons y ys =>
      have hy := length_joinComma_ge y ys (h2 y (List.mem_cons_self _ _))
      rw [← h] at hy
      simp [joinComma] at hy
  | cons x xs ih =>
    have hx : x ∈ ALLOW := h1 x (List.mem_cons_self _ _)
    have hxs : ∀ t ∈ xs, t ∈ ALLOW := fun t ht => h1 t (List.mem_cons_of_mem _ ht)
    cases l2 with
    | nil =>
      have hlen := length_joinComma_ge x xs hx
      rw [h] at hlen
      simp [joinComma] at hlen
    | cons y ys =>
      have hy : y ∈ ALLOW := h2 y (List.mem_cons_self _ _)
      have hys : ∀ t ∈ ys, t ∈ ALLOW := fun t ht => h2 t (List.mem_cons_of_mem _ ht)
      have hlx := length_of_mem_ALLOW x hx
      have hly := length_of_mem_ALLOW y hy
      cases xs with
      | nil =>
        cases ys with
        | nil =>
          simp only [joinComma] at h
          rw [h]
        | cons y2 ys2 =>
          exfalso
          have hl := congrArg List.length h
          simp only [joinComma, List.length_append, List.length_cons] at hl
          omega
      | cons x2 xs2 =>
        cases ys with
        | nil =>
          exfalso
          have hl := congrArg List.length h
          simp only [joinComma, List.length_append, List.length_cons] at hl
          omega
        | cons y2 ys2 =>
          simp only [joinComma] at h
          have hsplit := List.append_inj h (by rw [hlx, hly])
          have htail : joinComma (x2 :: xs2) = joinComma (y2 :: ys2) :=
            List.tail_eq_of_cons_eq hsplit.2
          rw [hsplit.1, ih (y2 :: ys2) hxs hys htail]

/-- The cache key determines the base and the ordered list of targets. -/
theorem cacheKey_inj (b1 b2 : Str) (l1 l2 : List Str) (hb1 : b1 ∈ ALLOW) (hb2 : b2 ∈ ALLOW)
    (h1 : ∀ t ∈ l1, t ∈ ALLOW) (h2 : ∀ t ∈ l2, t ∈ ALLOW)
    (h : cacheKey b1 l1 = cacheKey b2 l2) : b1 = b2 ∧ l1 = l2 := by
  have hl : b1.length = b2.length := by
    rw [length_of_mem_ALLOW b1 hb1, length_of_mem_ALLOW b2 hb2]
  unfold cacheKey at h
  have hsplit := List.append_inj h hl
  exact ⟨hsplit.1, joinComma_inj l1 l2 h1 h2 (List.tail_eq_of_cons_eq hsplit.2)⟩

/-- C11: the cache key of a request is its base, then `|`, then its targets
joined by commas in the order received; on allow-listed bases and lists of
allow-listed targets, two keys are equal exactly when the bases are equal
and the target lists are equal as ordered lists; so two requests that pass
the input checks have the same key exactly when they have the same base and
the same targets in the same order. -/
theorem c11_cache_key_injective {V : Type} (rt : Runtime V) (req req2 : Request) (b1 b2 : Str)
    (l1 l2 : List Str) (hb1 : b1 ∈ ALLOW) (hb2 : b2 ∈ ALLOW) (h1 : ∀ t ∈ l1, t ∈ ALLOW)
    (h2 : ∀ t ∈ l2, t ∈ ALLOW) :
    requestKey rt req = normBase rt req ++ "|".toList ++ joinComma (targets rt req) ∧
    (cacheKey b1 l1 = cacheKey b2 l2 ↔ b1 = b2 ∧ l1 = l2) ∧
    (ValidInput rt req → ValidInput rt req2 →
      (requestKey rt req = requestKey rt req2 ↔
        normBase rt req = normBase rt req2 ∧ targets rt req = targets rt req2)) := by
  refine ⟨?_, ⟨?_, ?_⟩, ?_⟩
  · unfold requestKey cacheKey
    simp
  · exact cacheKey_inj b1 b2 l1 l2 hb1 hb2 h1 h2
  · intro h
    rw [h.1, h.2]
  · intro hv hv2
    constructor
    · intro h
      exact cacheKey_inj _ _ _ _ hv.2.1 hv2.2.1 (fun t ht => (mem_targets rt req t ht).1)
        (fun t ht => (mem_targets rt req2 t ht).1) h
    · intro h
      unfold requestKey
      rw [h.1, h.2]

/-- C11, at the instance of the claim: the requests `symbols=USD,EUR` and
`symbols=EUR,USD` on the default base pass the input checks, have the same
base and have different cache keys. -/
theorem c11_cache_key_injective_witness :
    ValidInput natRuntime
      { amount := none, base := none, symbols := some "USD,EUR".toList, now := 0 } ∧
    ValidInput natRuntime
      { amount := none, base := none, symbols := some "EUR,USD".toList, now := 0 } ∧
    requestKey natRuntime
        { amount := none, base := none, symbols := some "USD,EUR".toList, now := 0 }
      ≠ requestKey natRuntime
        { amount := none, base := none, symbols := some "EUR,USD".toList, now := 0 } :=
  ⟨⟨rfl, by decide, by decide⟩, ⟨rfl, by decide, by decide⟩, fun h =>
    absurd
      (((c11_cache_key_injective natRuntime
        { amount := none, base := none, symbols := some "USD,EUR".toList, now := 0 }
        { amount := none, base := none, symbols := some "EUR,USD".toList, now := 0 }
        "INR".toList "INR".toList ["USD".toList, "EUR".toList] ["EUR".toList, "USD".toList]
        (by decide) (by decide) (by decide) (by decide)).2.2
        ⟨rfl, by decide, by decide⟩ ⟨rfl, by decide, by decide⟩).mp h).2
      (by decide)⟩

/-! ## Writing and reading the cache -/

/-- A provider that is reached and succeeds serves the request. -/
theorem chain_served_of_succeeds {V : Type} (rt : Runtime V) (P : Providers V)
    (cache : Cache V) (base : Str) (amount : JsNum) (syms : List Str) (key : Str) (now : Int)
    (p : ProviderId) (tbl : JsObj (Option V)) (hr : reached P base syms p)
    (hs : providerSucceeds P base syms p tbl) :
    tryExchangerateHost rt P cache base amount syms key now
      = served rt cache base amount syms key now p tbl := by
  obtain ⟨ho, hp⟩ := hs
  cases p
  · exact chain_first_ok _ _ _ _ _ _ _ _ _ ho hp
  · exact chain_second_ok _ _ _ _ _ _ _ _ _ hr ho hp
  · exact chain_third_ok _ _ _ _ _ _ _ _ _ hr.1 hr.2 ho hp

/-- The lookup of a live entry in terms of the stored entry and its age. -/
theorem liveEntry_eq_some_iff {V : Type} (cache : Cache V) (key : Str) (now : Int)
    (entry : CacheEntry V) :
    liveEntry cache key now = some entry ↔
      JsObj.get cache key = some entry ∧ now - entry.ts < CACHE_TTL_MS := by
  unfold liveEntry
  cases hg : JsObj.get cache key with
  | none =>
    constructor
    · intro h; cases h
    · intro h; cases h.1
  | some e =>
    by_cases ht : now - e.ts < CACHE_TTL_MS
    · simp only [ht, if_true, Option.some.injEq]
      constructor
      · intro h; subst h; exact ⟨rfl, ht⟩
      · intro h; exact h.1
    · simp only [ht, if_false]
      constructor
      · intro h; cases h
      · intro h
        have he : e = entry := Option.some.inj h.1
        subst he
        exact absurd h.2 ht

/-- C12: when a provider serves a request, the entry under the key of the
request becomes the time of the request together with the projected table,
which binds each requested target with a non-null rate in the provider's
table to that very rate and binds nothing else; entries under other keys
read as before; the stored entry is the same whatever the (valid) amount of
the request; and the six-decimal rounding appears in the conversions only. -/
theorem c12_cache_write_on_success {V : Type} (rt : Runtime V) (P : Providers V)
    (cache : Cache V) (req : Request) (base : Str) (amt : JsNum) (conv : JsObj V) (src : Str)
    (h : (currency rt P cache req).response = Response.json base amt conv src none) :
    ∃ p tbl rates, src = ProviderId.name p ∧
      offered P (normBase rt req) (targets rt req) p = some tbl ∧
      JsObj.get (currency rt P cache req).cache (requestKey rt req)
        = some { ts := req.now, rates := rates } ∧
      (∀ k, JsObj.get rates k
        = if k ∈ targets rt req then (JsObj.get tbl k).join else none) ∧
      (∀ k, JsObj.get conv k
        = (JsObj.get rates k).map (fun r => rt.toFixed6 (rt.times amt r))) ∧
      (∀ k2, k2 ≠ requestKey rt req →
        JsObj.get (currency rt P cache req).cache k2 = JsObj.get cache k2) ∧
      (∀ a2, ((parseAmount a2).isNaN || (parseAmount a2).ltZero) = false →
        (currency rt P cache { req with amount := a2 }).cache
          = (currency rt P cache req).cache) := by
  obtain ⟨hv, _, _, hcase⟩ := currency_json_cases rt P cache req base amt conv src none h
  rcases hcase with ⟨entry, _, _, _, hca, _⟩ | ⟨hl, p, tbl, hr, hs, hconv, hsrc, _, hout⟩
  · cases hca
  · refine ⟨p, tbl, pick (targets rt req) tbl, hsrc, hs.1, ?_, ?_, ?_, ?_, ?_⟩
    · rw [hout]
      exact JsObj.get_set_self _ _ _
    · intro k
      exact get_pick _ _ k
    · intro k
      rw [hconv]
      exact get_convert rt amt _ k
    · intro k2 hk2
      rw [hout]
      exact JsObj.get_set_ne _ _ _ _ (fun e => hk2 e.symm)
    · intro a2 ha2
      have hv2 : ValidInput rt { req with amount := a2 } := ⟨ha2, hv.2.1, hv.2.2⟩
      have hc2 := currency_of_valid rt P cache { req with amount := a2 } hv2
      have hl2 : liveEntry cache (requestKey rt { req with amount := a2 }) req.now = none := hl
      rw [hl2] at hc2
      simp only at hc2
      have hch := chain_served_of_succeeds rt P cache (normBase rt req) (parseAmount a2)
        (targets rt req) (requestKey rt req) req.now p tbl hr hs
      have hc3 : currency rt P cache { req with amount := a2 }
          = served rt cache (normBase rt req) (parseAmount a2) (targets rt req)
              (requestKey rt req) req.now p tbl := hc2.trans hch
      rw [hc3, hout]
      rfl

/-- C12, at an instance: `amount=100` served by the first provider at time 42
on a cache that holds an entry under another key. -/
theorem c12_cache_write_on_success_witness :
    ∃ p tbl rates, "exchangerate.host".toList = ProviderId.name p ∧
      offered firstUp "INR".toList ["USD".toList, "EUR".toList] p = some tbl ∧
      JsObj.get
          (currency natRuntime firstUp
            [("USD|GBP".toList, { ts := 1, rates := [("GBP".toList, 5)] })]
            { amount := some "100".toList, base := none, symbols := none, now := 42 }).cache
          "INR|USD,EUR".toList
        = some { ts := 42, rates := rates } ∧
      (∀ k, JsObj.get rates k
        = if k ∈ ["USD".toList, "EUR".toList] then (JsObj.get tbl k).join else none) ∧
      (∀ k, JsObj.get [("USD".toList, 200), ("EUR".toList, 300)] k
        = (JsObj.get rates k).map
            (fun r => natRuntime.toFixed6 (natRuntime.times (JsNum.dec false 100 0) r))) ∧
      (∀ k2, k2 ≠ "INR|USD,EUR".toList →
        JsObj.get
            (currency natRuntime firstUp
              [("USD|GBP".toList, { ts := 1, rates := [("GBP".toList, 5)] })]
              { amount := some "100".toList, base := none, symbols := none, now := 42 }).cache
            k2
          = JsObj.get [("USD|GBP".toList, { ts := 1, rates := [("GBP".toList, 5)] })] k2) ∧
      (∀ a2, ((parseAmount a2).isNaN || (parseAmount a2).ltZero) = false →
        (currency natRuntime firstUp
            [("USD|GBP".toList, { ts := 1, rates := [("GBP".toList, 5)] })]
            { amount := a2, base := none, symbols := none, now := 42 }).cache
          = (currency natRuntime firstUp
              [("USD|GBP".toList, { ts := 1, rates := [("GBP".toList, 5)] })]
              { amount := some "100".toList, base := none, symbols := none, now := 42 }).cache) :=
  c12_cache_write_on_success natRuntime firstUp
    [("USD|GBP".toList, { ts := 1, rates := [("GBP".toList, 5)] })]
    { amount := some "100".toList, base := none, symbols := none, now := 42 }
    "INR".toList (JsNum.dec false 100 0) [("USD".toList, 200), ("EUR".toList, 300)]
    "exchangerate.host".toList rfl

/-- The chain never reports the cache as the source. -/
theorem chain_source_ne_cache {V : Type} (rt : Runtime V) (P : Providers V) (cache : Cache V)
    (base : Str) (amount : JsNum) (syms : List Str) (key : Str) (now : Int) (b : Str)
    (a : JsNum) (c : JsObj V) (ca : Option Int) :
    (tryExchangerateHost rt P cache base amount syms key now).response
      ≠ Response.json b a c "cache".toList ca := by
  intro h
  rcases chain_cases rt P cache base amount syms key now with
    ⟨p, tbl, _, _, he⟩ | ⟨p, kind, _, _, he⟩
  · rw [he] at h
    simp only [served, Response.json.injEq] at h
    exact name_ne_cache p h.2.2.2.1
  · rw [he] at h
    cases h

/-- The chain always starts with the first provider. -/
theorem chain_calls_head {V : Type} (rt : Runtime V) (P : Providers V) (cache : Cache V)
    (base : Str) (amount : JsNum) (syms : List Str) (key : Str) (now : Int) :
    (tryExchangerateHost rt P cache base amount syms key now).calls.head?
      = some ProviderId.exchangerateHost := by
  rcases tryExchangerateHost_calls rt P cache base amount syms key now with
    ⟨h, _⟩ | ⟨h, _⟩ | ⟨h, _⟩ <;> rw [h] <;> rfl

/-- C13: for a request that passes the input checks, the entry stored under
its key is used exactly when it exists and its age is strictly below the time
to live of 300000 ms. When it is used the answer is the success body with
source `cache`, `cachedAt` the time stored in the entry and the conversions
of the stored rates for the amount of the request, no provider is called and
the cache is unchanged; otherwise (no entry, or an age of 300000 ms or more)
the provider chain runs, starting with the first provider. -/
theorem c13_cache_hit_iff_live {V : Type} (rt : Runtime V) (P : Providers V) (cache : Cache V)
    (req : Request) (hv : ValidInput rt req) :
    CACHE_TTL_MS = 300000 ∧
    (∀ entry, JsObj.get cache (requestKey rt req) = some entry →
      req.now - entry.ts < 300000 →
      currency rt P cache req
        = { response := Response.json (normBase rt req) (parseAmount req.amount)
              (convert rt (parseAmount req.amount) entry.rates) "cache".toList (some entry.ts),
            calls := [], cache := cache }) ∧
    ((∃ b a c ca, (currency rt P cache req).response = Response.json b a c "cache".toList ca) ↔
      ∃ entry, JsObj.get cache (requestKey rt req) = some entry ∧
        req.now - entry.ts < 300000) ∧
    ((¬ ∃ entry, JsObj.get cache (requestKey rt req) = some entry ∧
        req.now - entry.ts < 300000) →
      currency rt P cache req
        = tryExchangerateHost rt P cache (normBase rt req) (parseAmount req.amount)
            (targets rt req) (requestKey rt req) req.now ∧
      (currency rt P cache req).calls.head? = some ProviderId.exchangerateHost) := by
  have httl : CACHE_TTL_MS = 300000 := by decide
  have hc := currency_of_valid rt P cache req hv
  have hhit : ∀ entry, JsObj.get cache (requestKey rt req) = some entry →
      req.now - entry.ts < 300000 →
      currency rt P cache req
        = { response := Response.json (normBase rt req) (parseAmount req.amount)
              (convert rt (parseAmount req.amount) entry.rates) "cache".toList (some entry.ts),
            calls := [], cache := cache } := by
    intro entry hg hage
    have hl : liveEntry cache (requestKey rt req) req.now = some entry :=
      (liveEntry_eq_some_iff _ _ _ _).mpr ⟨hg, by rw [httl]; exact hage⟩
    rw [hl] at hc
    exact hc
  have hmiss : (¬ ∃ entry, JsObj.get cache (requestKey rt req) = some entry ∧
        req.now - entry.ts < 300000) →
      currency rt P cache req
        = tryExchangerateHost rt P cache (normBase rt req) (parseAmount req.amount)
            (targets rt req) (requestKey rt req) req.now := by
    intro hno
    cases hl : liveEntry cache (requestKey rt req) req.now with
    | none =>
      rw [hl] at hc
      exact hc
    | some entry =>
      exfalso
      have := (liveEntry_eq_some_iff _ _ _ _).mp hl
      rw [httl] at this
      exact hno ⟨entry, this⟩
  refine ⟨httl, hhit, ⟨?_, ?_⟩, ?_⟩
  · intro hex
    by_contra hno
    obtain ⟨b, a, c, ca, hj⟩ := hex
    rw [hmiss hno] at hj
    exact chain_source_ne_cache _ _ _ _ _ _ _ _ _ _ _ _ hj
  · intro hex
    obtain ⟨entry, hg, hage⟩ := hex
    rw [hhit entry hg hage]
    exact ⟨_, _, _, _, rfl⟩
  · intro hno
    refine ⟨hmiss hno, ?_⟩
    rw [hmiss hno]
    exact chain_calls_head _ _ _ _ _ _ _ _

/-- C13, at an instance: an entry stored at time 0 is used at time 299999,
with all providers down. -/
theorem c13_cache_hit_iff_live_witness :
    currency natRuntime allDown
        [("INR|USD,EUR".toList, { ts := 0, rates := [("USD".toList, 2)] })]
        { amount := some "7".toList, base := none, symbols := none, now := 299999 }
      = { response := Response.json "INR".toList (JsNum.dec false 7 0) [("USD".toList, 14)]
            "cache".toList (some 0),
          calls := [],
          cache := [("INR|USD,EUR".toList, { ts := 0, rates := [("USD".toList, 2)] })] } :=
  (c13_cache_hit_iff_live natRuntime allDown
    [("INR|USD,EUR".toList, { ts := 0, rates := [("USD".toList, 2)] })]
    { amount := some "7".toList, base := none, symbols := none, now := 299999 }
    ⟨rfl, by decide, by decide⟩).2.1
    { ts := 0, rates := [("USD".toList, 2)] } rfl (by decide)

/-! ## The invariant of reachable caches -/

/-- Serving a request preserves the provenance of the cache. -/
theorem cacheProjected_step {V : Type} (rt : Runtime V) (P : Providers V) (cache : Cache V)
    (req : Request) (h : CacheProjected cache) :
    CacheProjected (currency rt P cache req).cache := by
  rcases currency_cache_cases rt P cache req with hc | ⟨hv, tbl, hp, hc⟩
  · rw [hc]; exact h
  · rw [hc]
    intro k entry hg
    by_cases hk : requestKey rt req = k
    · subst hk
      rw [JsObj.get_set_self] at hg
      cases hg
      exact ⟨normBase rt req, targets rt req, tbl, rfl, hv.2.1,
        fun t ht => mem_targets rt req t ht, rfl, hp⟩
    · rw [JsObj.get_set_ne _ _ _ _ hk] at hg
      exact h k entry hg

/-- Every reachable cache has the provenance property. -/
theorem cacheProjected_of_reachable {V : Type} (rt : Runtime V) (cache : Cache V)
    (h : Reachable rt cache) : CacheProjected cache := by
  induction h with
  | init => intro k entry hg; cases hg
  | step P cache req _ ih => exact cacheProjected_step rt P cache req ih

/-- A non-empty rate table gives non-empty conversions. -/
theorem convert_ne_nil {V : Type} (rt : Runtime V) (amount : JsNum) (rates : JsObj V)
    (h : rates ≠ []) : convert rt amount rates ≠ [] := by
  cases hr : rates with
  | nil => exact absurd hr h
  | cons hd tl =>
    intro hc
    have h1 : hd.1 ∈ JsObj.keys (hd :: tl) := List.mem_cons_self _ _
    rw [← mem_keys_convert rt amount (hd :: tl), hc] at h1
    cases h1

/-- C14: in every cache state reachable from the empty cache, every stored
entry sits under the key of an allow-listed base and a list of allow-listed
targets other than the base; its rate table is not empty, is the projection
on those targets of an upstream table (so its values are the non-null members
of that table), and each of its keys is one of the targets, allow-listed and
different from the base. The base and targets are those spelled by the key:
the same holds for any allow-listed base and targets whose key the entry is
stored under. Consequently a response served from the cache never has empty
conversions. -/
theorem c14_cache_invariant {V : Type} (rt : Runtime V) (cache : Cache V)
    (hr : Reachable rt cache) :
    (∀ k entry, JsObj.get cache k = some entry →
      ∃ b ts, k = cacheKey b ts ∧ b ∈ ALLOW ∧ (∀ t ∈ ts, t ∈ ALLOW ∧ t ≠ b) ∧
        entry.rates ≠ [] ∧
        (∃ tbl : JsObj (Option V), entry.rates = pick ts tbl ∧
          ∀ x v, JsObj.get entry.rates x = some v → JsObj.get tbl x = some (some v)) ∧
        (∀ x ∈ JsObj.keys entry.rates, x ∈ ts ∧ x ∈ ALLOW ∧ x ≠ b)) ∧
    (∀ b ts entry, b ∈ ALLOW → (∀ t ∈ ts, t ∈ ALLOW) →
      JsObj.get cache (cacheKey b ts) = some entry →
      entry.rates ≠ [] ∧ ∀ x ∈ JsObj.keys entry.rates, x ∈ ts ∧ x ∈ ALLOW ∧ x ≠ b) ∧
    (∀ (P : Providers V) (req : Request) b a conv ca,
      (currency rt P cache req).response = Response.json b a conv "cache".toList ca →
      conv ≠ []) := by
  have hinv := cacheProjected_of_reachable rt cache hr
  have hfirst : ∀ k entry, JsObj.get cache k = some entry →
      ∃ b ts, k = cacheKey b ts ∧ b ∈ ALLOW ∧ (∀ t ∈ ts, t ∈ ALLOW ∧ t ≠ b) ∧
        entry.rates ≠ [] ∧
        (∃ tbl : JsObj (Option V), entry.rates = pick ts tbl ∧
          ∀ x v, JsObj.get entry.rates x = some v → JsObj.get tbl x = some (some v)) ∧
        (∀ x ∈ JsObj.keys entry.rates, x ∈ ts ∧ x ∈ ALLOW ∧ x ≠ b) := by
    intro k entry hg
    obtain ⟨b, ts, tbl, hk, hb, hts, hrates, hne⟩ := hinv k entry hg
    refine ⟨b, ts, hk, hb, hts, hne, ⟨tbl, hrates, ?_⟩, ?_⟩
    · intro x v hx
      rw [hrates, get_pick] at hx
      by_cases hm : x ∈ ts
      · rw [if_pos hm] at hx
        rcases hgt : JsObj.get tbl x with _ | _ | r
        · rw [hgt] at hx; cases hx
        · rw [hgt] at hx; cases hx
        · rw [hgt] at hx
          have hrv : r = v := Option.some.inj hx
          rw [hrv]
      · rw [if_neg hm] at hx; cases hx
    · intro x hx
      rw [hrates] at hx
      have hm := mem_keys_pick ts tbl x hx
      exact ⟨hm, (hts x hm).1, (hts x hm).2⟩
  refine ⟨hfirst, ?_, ?_⟩
  · intro b ts entry hb hts hg
    obtain ⟨b2, ts2, hk, hb2, hts2, hne, _, hkeys⟩ := hfirst _ entry hg
    obtain ⟨hbb, htt⟩ := cacheKey_inj b b2 ts ts2 hb hb2 hts (fun t ht => (hts2 t ht).1) hk
    rw [hbb, htt]
    exact ⟨hne, hkeys⟩
  · intro P req b a conv ca hj
    obtain ⟨_, _, _, hcase⟩ := currency_json_cases rt P cache req b a conv "cache".toList ca hj
    rcases hcase with ⟨entry, hl, hconv, _⟩ | ⟨_, p, _, _, _, _, hsrc, _⟩
    · obtain ⟨_, _, _, _, _, hne, _⟩ := hfirst _ entry (get_of_liveEntry _ _ _ _ hl)
      rw [hconv]
      exact convert_ne_nil rt a entry.rates hne
    · exact absurd hsrc.symm (name_ne_cache p)

/-- C14, at an instance: the cache left by the default request served by the
first provider is reachable, and its entry under `INR|USD,EUR` has a non-empty
table with keys among the targets. -/
theorem c14_cache_invariant_witness :
    Reachable natRuntime
      (currency natRuntime firstUp []
        { amount := none, base := none, symbols := none, now := 0 }).cache ∧
    (({ ts := 0, rates := [("USD".toList, 2), ("EUR".toList, 3)] } : CacheEntry Nat).rates ≠ [] ∧
      ∀ x ∈ JsObj.keys
          ({ ts := 0, rates := [("USD".toList, 2), ("EUR".toList, 3)] } : CacheEntry Nat).rates,
        x ∈ ["USD".toList, "EUR".toList] ∧ x ∈ ALLOW ∧ x ≠ "INR".toList) :=
  ⟨Reachable.step firstUp [] { amount := none, base := none, symbols := none, now := 0 }
      Reachable.init,
    (c14_cache_invariant natRuntime
      (currency natRuntime firstUp []
        { amount := none, base := none, symbols := none, now := 0 }).cache
      (Reachable.step firstUp [] { amount := none, base := none, symbols := none, now := 0 }
        Reachable.init)).2.1
      "INR".toList ["USD".toList, "EUR".toList]
      { ts := 0, rates := [("USD".toList, 2), ("EUR".toList, 3)] } (by decide) (by decide) rfl⟩

/-! ## Isolation of cache entries -/

/-- The response and the calls of the provider chain do not depend on the
cache it is started with. -/
theorem chain_cache_indep {V : Type} (rt : Runtime V) (P : Providers V) (c1 c2 : Cache V)
    (base : Str) (amount : JsNum) (syms : List Str) (key : Str) (now : Int) :
    (tryExchangerateHost rt P c1 base amount syms key now).response
      = (tryExchangerateHost rt P c2 base amount syms key now).response ∧
    (tryExchangerateHost rt P c1 base amount syms key now).calls
      = (tryExchangerateHost rt P c2 base amount syms key now).calls := by
  cases hA : offered P base syms ProviderId.exchangerateHost with
  | some tbl =>
    by_cases hp : pick syms tbl = []
    · rw [chain_first_empty rt P c1 _ _ _ _ _ _ hA hp, chain_first_empty rt P c2 _ _ _ _ _ _ hA hp]
      exact ⟨rfl, rfl⟩
    · rw [chain_first_ok rt P c1 _ _ _ _ _ _ hA hp, chain_first_ok rt P c2 _ _ _ _ _ _ hA hp]
      exact ⟨rfl, rfl⟩
  | none =>
    cases hB : offered P base syms ProviderId.frankfurter with
    | some tbl =>
      by_cases hp : pick syms tbl = []
      · rw [chain_second_empty rt P c1 _ _ _ _ _ _ hA hB hp,
          chain_second_empty rt P c2 _ _ _ _ _ _ hA hB hp]
        exact ⟨rfl, rfl⟩
      · rw [chain_second_ok rt P c1 _ _ _ _ _ _ hA hB hp,
          chain_second_ok rt P c2 _ _ _ _ _ _ hA hB hp]
        exact ⟨rfl, rfl⟩
    | none =>
      by_cases hf : providerFails P base syms ProviderId.openErApi
      · rw [chain_third_fails rt P c1 _ _ _ _ _ hA hB hf,
          chain_third_fails rt P c2 _ _ _ _ _ hA hB hf]
        exact ⟨rfl, rfl⟩
      · cases hC : offered P base syms ProviderId.openErApi with
        | none =>
          exfalso
          apply hf
          unfold providerFails
          rw [hC]
          trivial
        | some tbl =>
          have hp : pick syms tbl ≠ [] := by
            intro hc
            apply hf
            unfold providerFails
            rw [hC]
            exact hc
          rw [chain_third_ok rt P c1 _ _ _ _ _ _ hA hB hC hp,
            chain_third_ok rt P c2 _ _ _ _ _ _ hA hB hC hp]
          exact ⟨rfl, rfl⟩

/-- C15: for a fixed request (time included) and fixed providers, two caches
that agree on the entry stored under the cache key of the request give the
same response (status, body, source, `cachedAt`) and the same sequence of
provider calls; entries under other keys have no influence. -/
theorem c15_cache_isolation {V : Type} (rt : Runtime V) (P : Providers V) (c1 c2 : Cache V)
    (req : Request)
    (h : JsObj.get c1 (requestKey rt req) = JsObj.get c2 (requestKey rt req)) :
    (currency rt P c1 req).response = (currency rt P c2 req).response ∧
    (currency rt P c1 req).calls = (currency rt P c2 req).calls := by
  by_cases hv : ValidInput rt req
  · have hl : liveEntry c1 (requestKey rt req) req.now
        = liveEntry c2 (requestKey rt req) req.now := by
      unfold liveEntry
      rw [h]
    have h1 := currency_of_valid rt P c1 req hv
    have h2 := currency_of_valid rt P c2 req hv
    rw [hl] at h1
    cases hle : liveEntry c2 (requestKey rt req) req.now with
    | some entry =>
      rw [hle] at h1 h2
      rw [h1, h2]
      exact ⟨rfl, rfl⟩
    | none =>
      rw [hle] at h1 h2
      simp only at h1 h2
      rw [h1, h2]
      exact chain_cache_indep rt P c1 c2 _ _ _ _ _
  · by_cases ha : ((parseAmount req.amount).isNaN || (parseAmount req.amount).ltZero) = true
    · rw [currency_of_bad_amount rt P c1 req ha, currency_of_bad_amount rt P c2 req ha]
      exact ⟨rfl, rfl⟩
    · have ha2 : ((parseAmount req.amount).isNaN || (parseAmount req.amount).ltZero) = false := by
        cases hh : ((parseAmount req.amount).isNaN || (parseAmount req.amount).ltZero)
        · rfl
        · exact absurd hh ha
      by_cases hb : normBase rt req ∈ ALLOW
      · by_cases hs : allowedSymbols rt req = []
        · rw [currency_of_no_symbols rt P c1 req ha2 hb hs,
            currency_of_no_symbols rt P c2 req ha2 hb hs]
          exact ⟨rfl, rfl⟩
        · exact absurd ⟨ha2, hb, hs⟩ hv
      · rw [currency_of_bad_base rt P c1 req ha2 hb, currency_of_bad_base rt P c2 req ha2 hb]
        exact ⟨rfl, rfl⟩

/-- C15, at an instance: the default request at time 10 on a cache that holds
only its entry, and on one that also holds an entry under another key. -/
theorem c15_cache_isolation_witness :
    (currency natRuntime allDown
        [("INR|USD,EUR".toList, { ts := 0, rates := [("USD".toList, 2)] })]
        { amount := none, base := none, symbols := none, now := 10 }).response
      = (currency natRuntime allDown
          [("USD|GBP".toList, { ts := 1, rates := [("GBP".toList, 5)] }),
           ("INR|USD,EUR".toList, { ts := 0, rates := [("USD".toList, 2)] })]
          { amount := none, base := none, symbols := none, now := 10 }).response ∧
    (currency natRuntime allDown
        [("INR|USD,EUR".toList, { ts := 0, rates := [("USD".toList, 2)] })]
        { amount := none, base := none, symbols := none, now := 10 }).calls
      = (currency natRuntime allDown
          [("USD|GBP".toList, { ts := 1, rates := [("GBP".toList, 5)] }),
           ("INR|USD,EUR".toList, { ts := 0, rates := [("USD".toList, 2)] })]
          { amount := none, base := none, symbols := none, now := 10 }).calls :=
  c15_cache_isolation natRuntime allDown
    [("INR|USD,EUR".toList, { ts := 0, rates := [("USD".toList, 2)] })]
    [("USD|GBP".toList, { ts := 1, rates := [("GBP".toList, 5)] }),
     ("INR|USD,EUR".toList, { ts := 0, rates := [("USD".toList, 2)] })]
    { amount := none, base := none, symbols := none, now := 10 } rfl

end InfoHub
